import Mathlib

/-!
Formal model of the vanilla-calculator engine (script.js, calculator.js,
utils.js) and its result formatter, with theorems checking the behavioural
claims of the specification against the code.

Numbers are modelled exactly: JavaScript numbers become `JNum` (NaN, signed
infinity, or an exact rational).  All state-changing methods of the
`Calculator` class are translated line by line into pure state-passing
functions; DOM updates, screen-reader announcements and storage calls have no
effect on the modelled state and are omitted.
-/

/-- Numeric value of an ASCII digit character. -/
def digitVal (c : Char) : ℕ := c.toNat - 48

/-- ASCII digit character of a value below ten. -/
def digitChar (d : ℕ) : Char := Char.ofNat (48 + d)

/-- Decimal value of a digit string, most significant digit first. -/
def charsVal (cs : List Char) : ℕ := cs.foldl (fun a c => 10 * a + digitVal c) 0

/-- Digit characters of a natural number, most significant first; the first
argument is recursion fuel (any bound of the digit count works). -/
def natToCharsAux : ℕ → ℕ → List Char
  | 0, _ => []
  | fuel + 1, n =>
    if n = 0 then [] else natToCharsAux fuel (n / 10) ++ [digitChar (n % 10)]

/-- Decimal digit characters of a natural number, as produced by the
JavaScript integer-to-string conversion. -/
def natToChars (n : ℕ) : List Char := if n = 0 then ['0'] else natToCharsAux (n + 1) n

theorem digitVal_digitChar {d : ℕ} (h : d < 10) : digitVal (digitChar d) = d := by
  interval_cases d <;> decide

theorem isDigit_digitChar {d : ℕ} (h : d < 10) : (digitChar d).isDigit = true := by
  interval_cases d <;> decide

theorem digitChar_ne_dot {d : ℕ} (h : d < 10) : digitChar d ≠ '.' := by
  interval_cases d <;> decide

theorem foldl_digit_shift (cs : List Char) (a : ℕ) :
    cs.foldl (fun a c => 10 * a + digitVal c) a =
      a * 10 ^ cs.length + charsVal cs := by
  induction cs generalizing a with
  | nil => simp [charsVal]
  | cons c cs ih =>
    simp only [List.foldl_cons, List.length_cons, charsVal]
    rw [ih, ih (10 * 0 + digitVal c)]
    ring

theorem charsVal_append (xs ys : List Char) :
    charsVal (xs ++ ys) = charsVal xs * 10 ^ ys.length + charsVal ys := by
  unfold charsVal
  rw [List.foldl_append, foldl_digit_shift]
  rfl

theorem natToCharsAux_zero (fuel : ℕ) : natToCharsAux fuel 0 = [] := by
  cases fuel <;> simp [natToCharsAux]

theorem lt_ten_pow_succ (n : ℕ) : n < 10 ^ (n + 1) :=
  lt_of_lt_of_le (Nat.lt_pow_self (by norm_num) n)
    (Nat.pow_le_pow_right (by norm_num) (Nat.le_succ n))

theorem charsVal_singleton (c : Char) : charsVal [c] = digitVal c := by
  simp [charsVal]

theorem natToCharsAux_spec (fuel : ℕ) :
    ∀ n : ℕ, n < 10 ^ fuel →
      charsVal (natToCharsAux fuel n) = n ∧
      (∀ c ∈ natToCharsAux fuel n, c.isDigit = true) ∧
      (n ≠ 0 → (natToCharsAux fuel n).length ≠ 0 ∧
        10 ^ ((natToCharsAux fuel n).length - 1) ≤ n ∧
        n < 10 ^ (natToCharsAux fuel n).length) := by
  induction fuel with
  | zero =>
    intro n hn
    interval_cases n
    simp [natToCharsAux, charsVal]
  | succ fuel ih =>
    intro n hn
    by_cases h0 : n = 0
    · subst h0; simp [natToCharsAux, charsVal]
    · have hd : n / 10 < 10 ^ fuel := by
        rw [Nat.div_lt_iff_lt_mul (by norm_num)]
        calc n < 10 ^ (fuel + 1) := hn
        _ = 10 ^ fuel * 10 := by ring
      obtain ⟨ihv, ihd, ihl⟩ := ih (n / 10) hd
      have hmod : n % 10 < 10 := Nat.mod_lt _ (by norm_num)
      constructor
      · simp only [natToCharsAux, if_neg h0]
        rw [charsVal_append, charsVal_singleton, ihv, digitVal_digitChar hmod]
        simp only [List.length_singleton, pow_one]
        omega
      constructor
      · intro c hc
        simp only [natToCharsAux, if_neg h0, List.mem_append, List.mem_singleton] at hc
        rcases hc with hc | hc
        · exact ihd c hc
        · subst hc; exact isDigit_digitChar hmod
      · intro _
        simp only [natToCharsAux, if_neg h0, List.length_append, List.length_singleton]
        by_cases hq : n / 10 = 0
        · have hn10 : n < 10 := by
            have := Nat.div_add_mod n 10
            omega
          simp only [hq, natToCharsAux_zero, List.length_nil]
          refine ⟨by simp, ?_, ?_⟩
          · simpa using Nat.one_le_iff_ne_zero.mpr h0
          · simpa using hn10
        · obtain ⟨hne, hlo, hhi⟩ := ihl hq
          set l := (natToCharsAux fuel (n / 10)).length with hl
          have hl1 : 1 ≤ l := Nat.one_le_iff_ne_zero.mpr hne
          refine ⟨by omega, ?_, ?_⟩
          · have : 10 ^ (l + 1 - 1) = 10 * 10 ^ (l - 1) := by
              rw [← pow_succ']
              congr 1
              omega
            rw [this]
            have h10 : 10 * (n / 10) ≤ n := Nat.mul_div_le n 10
            calc 10 * 10 ^ (l - 1) ≤ 10 * (n / 10) := by
                  exact Nat.mul_le_mul_left 10 hlo
            _ ≤ n := h10
          · have h1 : n < 10 * (n / 10) + 10 := by
              have := Nat.div_add_mod n 10
              omega
            calc n < 10 * (n / 10) + 10 := h1
            _ ≤ 10 * (10 ^ l - 1) + 10 := by
                  have : n / 10 ≤ 10 ^ l - 1 := by omega
                  omega
            _ ≤ 10 ^ (l + 1) := by
                  rw [pow_succ]
                  have : 1 ≤ 10 ^ l := Nat.one_le_pow _ _ (by norm_num)
                  omega

theorem charsVal_natToChars (n : ℕ) : charsVal (natToChars n) = n := by
  by_cases h : n = 0
  · subst h; decide
  · simp only [natToChars, if_neg h]
    exact (natToCharsAux_spec (n + 1) n (lt_ten_pow_succ n)).1

theorem natToChars_all_digits (n : ℕ) : ∀ c ∈ natToChars n, c.isDigit = true := by
  by_cases h : n = 0
  · subst h; decide
  · simp only [natToChars, if_neg h]
    exact (natToCharsAux_spec (n + 1) n (lt_ten_pow_succ n)).2.1

theorem natToChars_ne_nil (n : ℕ) : natToChars n ≠ [] := by
  by_cases h : n = 0
  · subst h; decide
  · simp only [natToChars, if_neg h]
    intro hnil
    exact ((natToCharsAux_spec (n + 1) n (lt_ten_pow_succ n)).2.2 h).1
      (by rw [hnil]; rfl)

theorem natToChars_length_bounds {n : ℕ} (h : n ≠ 0) :
    10 ^ ((natToChars n).length - 1) ≤ n ∧ n < 10 ^ (natToChars n).length := by
  simp only [natToChars, if_neg h]
  exact ((natToCharsAux_spec (n + 1) n (lt_ten_pow_succ n)).2.2 h).2

/-- Digit count of a natural number as rendered in decimal. -/
def digitsLen (n : ℕ) : ℕ := (natToChars n).length

theorem digitsLen_le_iff {n L : ℕ} (hn : n ≠ 0) :
    digitsLen n ≤ L ↔ n < 10 ^ L := by
  obtain ⟨hlo, hhi⟩ := natToChars_length_bounds hn
  unfold digitsLen
  constructor
  · intro h
    exact lt_of_lt_of_le hhi (Nat.pow_le_pow_right (by norm_num) h)
  · intro h
    by_contra hc
    push_neg at hc
    have : 10 ^ L ≤ 10 ^ ((natToChars n).length - 1) :=
      Nat.pow_le_pow_right (by norm_num) (by omega)
    omega

/-! ### Scaled-decimal rendering: the JavaScript Number-to-string conversions

The formatter only ever converts to string values of the form `k / 10^scale`
(`rounded` is `Math.round(result * 1e10) / 1e10`).  These converters model the
ECMAScript `Number::toString`, `toFixed` and `toExponential(6)` algorithms on
such values, producing exact decimal output. -/

/-- JavaScript `Math.round`: round half toward positive infinity. -/
def jsRoundZ (q : ℚ) : ℤ := ⌊q + 1 / 2⌋

/-- Decimal characters of an integer, sign included. -/
def intToChars (k : ℤ) : List Char :=
  (if k < 0 then ['-'] else []) ++ natToChars k.natAbs

/-- Cancel factors of ten between a significand and its decimal scale,
yielding the canonical form used by shortest-representation printing. -/
def reduceScaled : ℕ → ℕ → ℕ × ℕ
  | k, 0 => (k, 0)
  | k, s + 1 => if k % 10 = 0 ∧ k ≠ 0 then reduceScaled (k / 10) s else (k, s + 1)

/-- Render a positive canonical scaled decimal `k / 10^scale` the way
ECMAScript `Number::toString` does: plain integer, fixed-point, or (for
magnitudes below `10^-6`) exponential notation. -/
def renderPos (k scale : ℕ) : List Char :=
  let ds := natToChars k
  if scale = 0 then ds
  else if scale < ds.length then
    ds.take (ds.length - scale) ++ '.' :: ds.drop (ds.length - scale)
  else if scale - ds.length < 6 then
    '0' :: '.' :: (List.replicate (scale - ds.length) '0' ++ ds)
  else
    (match ds with
     | [] => []
     | d :: rest => if rest = [] then [d] else d :: '.' :: rest) ++
      'e' :: '-' :: natToChars (scale - ds.length + 1)

/-- ECMAScript `Number::toString` for a value `k / 10^scale`. -/
def jsToStringScaled (k : ℤ) (scale : ℕ) : List Char :=
  if k = 0 then ['0']
  else
    let r := reduceScaled k.natAbs scale
    (if k < 0 then ['-'] else []) ++ renderPos r.1 r.2

/-- ECMAScript `Number.prototype.toFixed` applied to `k / 10^scale` with `a`
fractional digits: the sign is taken from the value, the magnitude is rounded
half-up, and the fraction is zero-padded to exactly `a` digits. -/
def jsToFixedScaled (k : ℤ) (scale a : ℕ) : List Char :=
  let m : ℕ := (jsRoundZ ((k.natAbs : ℚ) * 10 ^ a / 10 ^ scale)).toNat
  (if k < 0 then ['-'] else []) ++
    (if a = 0 then natToChars m
     else
       let fr := natToChars (m % 10 ^ a)
       natToChars (m / 10 ^ a) ++ '.' :: (List.replicate (a - fr.length) '0' ++ fr))

/-- ECMAScript `Number.prototype.toExponential(6)` for values of magnitude at
least one (the only values the source applies it to): seven significant
digits, rounded half-up, rendered in the shape digit, point, six digits,
letter e, and a sign-carrying
exponent.  The decimal exponent (floor of the base-ten logarithm) is computed
for magnitudes of at least one, the only case the source exercises. -/
def decExpNat (y : ℚ) : ℕ := digitsLen ⌊y⌋.toNat - 1

/-- Mantissa (seven significant digits, rounded half-up) and decimal exponent
chosen by `toExponential(6)`, carrying into the next exponent when rounding
reaches `10^7`. -/
def expRound (y : ℚ) : ℕ × ℕ :=
  if (jsRoundZ (y * 10 ^ 6 / 10 ^ decExpNat y)).toNat = 10 ^ 7
  then (10 ^ 6, decExpNat y + 1)
  else ((jsRoundZ (y * 10 ^ 6 / 10 ^ decExpNat y)).toNat, decExpNat y)

def toExponential6 (x : ℚ) : List Char :=
  match natToChars (expRound |x|).1 with
  | [] => []
  | d :: rest =>
    (if x < 0 then ['-'] else []) ++
      d :: '.' :: rest ++ 'e' :: '+' :: natToChars (expRound |x|).2

/-- The regular-expression replacement `.replace(/\.?0+$/, '')`: drop a
trailing run of zeros together with a decimal point immediately before it. -/
def stripTailZeros (cs : List Char) : List Char :=
  let r := cs.reverse
  if r.head? = some '0' then
    let r1 := r.dropWhile (fun x => x = '0')
    match r1 with
    | [] => []
    | c :: r2 => if c = '.' then r2.reverse else (c :: r2).reverse
  else cs

/-- JavaScript number values: NaN, signed infinity, or an exact finite value
(finite doubles are modelled as exact rationals). -/
inductive JNum where
  | nan : JNum
  | inf : Bool → JNum
  | fin : ℚ → JNum
deriving DecidableEq

/-- Whether a `JNum` is finite, as the JavaScript `isFinite` test. -/
def JNum.isFiniteJ : JNum → Bool
  | .fin _ => true
  | _ => false

/-- Whether a `JNum` is NaN, as the JavaScript `isNaN` test. -/
def JNum.isNaNJ : JNum → Bool
  | .nan => true
  | _ => false

/-- `const rounded = Math.round(result * Math.pow(10, 10)) / Math.pow(10, 10)`
(utils.js): the rounded value is carried as its scaled integer numerator, so
`rounded = roundedNum x / 10^10`. -/
def roundedNum (x : ℚ) : ℤ := jsRoundZ (x * 10 ^ 10)

/-- `let formatted = rounded.toString()` followed by
`if (formatted.includes('.')) formatted = formatted.replace(/\.?0+$/, '')`. -/
def formattedStr (k : ℤ) : List Char :=
  if (jsToStringScaled k 10).contains '.' then stripTailZeros (jsToStringScaled k 10)
  else jsToStringScaled k 10

/-- The `formatted.length > maxDigits` fallback of `formatResult`:
`integerPart = Math.floor(Math.abs(rounded)).toString()`,
`availableDecimals = maxDigits - integerPart.length`, then either
`rounded.toFixed(availableDecimals).replace(/\.?0+$/, '')` when
`availableDecimals > 0` or `Math.round(rounded).toString()`. -/
def fixedFallback (k : ℤ) (maxDigits : ℕ) : List Char :=
  if (natToChars (k.natAbs / 10 ^ 10)).length < maxDigits then
    stripTailZeros (jsToFixedScaled k 10
      (maxDigits - (natToChars (k.natAbs / 10 ^ 10)).length))
  else intToChars (jsRoundZ ((k : ℚ) / 10 ^ 10))

/-- `CalculatorUtils.formatResult` (utils.js): format a calculation result
under a digit budget.  Not-finite results map to `"Error"`; magnitudes of at
least `10^maxDigits` take the exponential path; otherwise the rounded value is
rendered and, when still over the budget, truncated by `fixedFallback`. -/
def formatResult (result : JNum) (maxDigits : ℕ) : String :=
  match result with
  | .nan => "Error"
  | .inf _ => "Error"
  | .fin x =>
    -- if (Math.abs(result) >= Math.pow(10, maxDigits)) return result.toExponential(6)
    if 10 ^ maxDigits ≤ |x| then String.mk (toExponential6 x)
    -- if (formatted.length > maxDigits) ... truncate
    else if maxDigits < (formattedStr (roundedNum x)).length then
      String.mk (fixedFallback (roundedNum x) maxDigits)
    else String.mk (formattedStr (roundedNum x))

/-! ### The JavaScript `parseFloat` model

`parseFloat` trims leading whitespace, reads an optional sign, recognises the
`Infinity` literal, and otherwise reads the longest prefix of the form
digits, optional point and digits, optional exponent; it returns NaN when no
digit was read. -/

/-- JavaScript whitespace accepted before a parsed number. -/
def isJsSpace (c : Char) : Bool := c = ' ' ∨ c = '\t' ∨ c = '\n' ∨ c = '\r'

/-- Read an optional leading sign; returns (negative?, remainder). -/
def readSign : List Char → Bool × List Char
  | [] => (false, [])
  | c :: r =>
    if c = '-' then (true, r)
    else if c = '+' then (false, r)
    else (false, c :: r)

/-- Longest prefix of decimal digits, with the remainder. -/
def spanDigits (cs : List Char) : List Char × List Char :=
  match cs with
  | [] => ([], [])
  | c :: rest =>
    if c.isDigit then
      let p := spanDigits rest
      (c :: p.1, p.2)
    else ([], cs)

/-- Whether the second list begins with the first one. -/
def startsChars : List Char → List Char → Bool
  | [], _ => true
  | _ :: _, [] => false
  | p :: ps, c :: cs => p = c && startsChars ps cs

/-- Exponent value after the letter e or E: optional sign and digits
(zero when no digit follows, matching the value `parseFloat` yields). -/
def readExpAfter (cs : List Char) : ℤ :=
  let sg := readSign cs
  let ds := spanDigits sg.2
  if ds.1 = [] then 0 else (if sg.1 then -1 else 1) * (charsVal ds.1 : ℤ)

/-- Optional exponent part of a parsed number. -/
def readExp : List Char → ℤ
  | [] => 0
  | c :: rest => if c = 'e' ∨ c = 'E' then readExpAfter rest else 0

/-- Unsigned magnitude part: digits, optional point and digits, optional
exponent; `none` when no digit was read (the NaN case). -/
def parseMag (cs : List Char) : Option ℚ :=
  let ips := spanDigits cs
  let f : List Char × List Char :=
    match ips.2 with
    | [] => ([], [])
    | c :: r => if c = '.' then spanDigits r else ([], c :: r)
  if ips.1 = [] ∧ f.1 = [] then none
  else some (((charsVal ips.1 : ℚ) + (charsVal f.1 : ℚ) / 10 ^ f.1.length) *
             (10 : ℚ) ^ readExp f.2)

/-- JavaScript `parseFloat`. -/
def parseNumber (s : String) : JNum :=
  let cs0 := s.data.dropWhile (fun c => isJsSpace c)
  let sg := readSign cs0
  if startsChars ['I', 'n', 'f', 'i', 'n', 'i', 't', 'y'] sg.2 then JNum.inf sg.1
  else
    match parseMag sg.2 with
    | none => JNum.nan
    | some q => JNum.fin ((if sg.1 then -1 else 1) * q)

/-! ### Parsing the rendered strings back -/

theorem isJsSpace_of_digit {c : Char} (h : c.isDigit = true) : isJsSpace c = false := by
  unfold isJsSpace
  by_cases h1 : c = ' '
  · subst h1; simp [Char.isDigit] at h
  · by_cases h2 : c = '\t'
    · subst h2; simp [Char.isDigit] at h
    · by_cases h3 : c = '\n'
      · subst h3; simp [Char.isDigit] at h
      · by_cases h4 : c = '\r'
        · subst h4; simp [Char.isDigit] at h
        · simp [h1, h2, h3, h4]

theorem digit_ne_minus {c : Char} (h : c.isDigit = true) : c ≠ '-' := by
  intro hc; subst hc; simp [Char.isDigit] at h

theorem digit_ne_plus {c : Char} (h : c.isDigit = true) : c ≠ '+' := by
  intro hc; subst hc; simp [Char.isDigit] at h

theorem digit_ne_I {c : Char} (h : c.isDigit = true) : c ≠ 'I' := by
  intro hc; subst hc; simp [Char.isDigit] at h

theorem digit_ne_e {c : Char} (h : c.isDigit = true) : c ≠ 'e' := by
  intro hc; subst hc; simp [Char.isDigit] at h

theorem dot_not_digit : ('.' : Char).isDigit = false := by decide

theorem readSign_digit {c : Char} (h : c.isDigit = true) (cs : List Char) :
    readSign (c :: cs) = (false, c :: cs) := by
  simp [readSign, digit_ne_minus h, digit_ne_plus h]

theorem readSign_dot (cs : List Char) : readSign ('.' :: cs) = (false, '.' :: cs) := by
  simp [readSign]

theorem readSign_minus (cs : List Char) : readSign ('-' :: cs) = (true, cs) := by
  simp [readSign]

theorem startsInfinity_false {c : Char} (h : c ≠ 'I') (cs : List Char) :
    startsChars ['I', 'n', 'f', 'i', 'n', 'i', 't', 'y'] (c :: cs) = false := by
  have hne : ¬ ('I' = c) := fun hh => h hh.symm
  simp [startsChars, hne]

theorem spanDigits_append {ds rest : List Char}
    (h : ∀ c ∈ ds, c.isDigit = true)
    (hr : ∀ c, rest.head? = some c → c.isDigit = false) :
    spanDigits (ds ++ rest) = (ds, rest) := by
  induction ds with
  | nil =>
    cases rest with
    | nil => rfl
    | cons c cs => simp [spanDigits, hr c rfl]
  | cons d ds ih =>
    have hd : d.isDigit = true := h d (List.mem_cons_self d ds)
    have ih' := ih (fun c hc => h c (List.mem_cons_of_mem d hc))
    simp [spanDigits, hd, ih']

theorem charsVal_replicate_zero (z : ℕ) : charsVal (List.replicate z '0') = 0 := by
  induction z with
  | zero => rfl
  | succ z ih =>
    have : List.replicate (z + 1) '0' = List.replicate z '0' ++ ['0'] := by
      rw [List.replicate_succ']
    rw [this, charsVal_append, ih]
    decide

theorem readExpAfter_minus {eds : List Char} (h : ∀ c ∈ eds, c.isDigit = true)
    (hne : eds ≠ []) : readExpAfter ('-' :: eds) = -(charsVal eds : ℤ) := by
  unfold readExpAfter
  rw [readSign_minus]
  have : spanDigits eds = (eds, []) := by
    have := @spanDigits_append eds [] h (by intro c hc; cases hc)
    simpa using this
  simp [this, hne]

theorem readExpAfter_plus {eds : List Char} (h : ∀ c ∈ eds, c.isDigit = true)
    (hne : eds ≠ []) : readExpAfter ('+' :: eds) = (charsVal eds : ℤ) := by
  unfold readExpAfter
  have : readSign ('+' :: eds) = (false, eds) := by simp [readSign]
  rw [this]
  have : spanDigits eds = (eds, []) := by
    have := @spanDigits_append eds [] h (by intro c hc; cases hc)
    simpa using this
  simp [this, hne]

theorem charsVal_nil : charsVal [] = 0 := rfl

theorem spanDigits_all {ds : List Char} (h : ∀ c ∈ ds, c.isDigit = true) :
    spanDigits ds = (ds, []) := by
  have := @spanDigits_append ds [] h (by intro c hc; cases hc)
  simpa using this

theorem parseMag_digits {ds : List Char} (h : ∀ c ∈ ds, c.isDigit = true)
    (hne : ds ≠ []) : parseMag ds = some (charsVal ds) := by
  unfold parseMag
  rw [spanDigits_all h]
  simp [hne, readExp, charsVal_nil]

theorem parseMag_ip_dot_fp {ip fp : List Char}
    (hip : ∀ c ∈ ip, c.isDigit = true) (hfp : ∀ c ∈ fp, c.isDigit = true)
    (hne : ip ≠ [] ∨ fp ≠ []) :
    parseMag (ip ++ '.' :: fp) =
      some ((charsVal ip : ℚ) + (charsVal fp : ℚ) / 10 ^ fp.length) := by
  unfold parseMag
  have hspan : spanDigits (ip ++ '.' :: fp) = (ip, '.' :: fp) :=
    spanDigits_append hip (by intro c hc; simp at hc; subst hc; decide)
  rw [hspan]
  simp only [spanDigits_all hfp]
  rcases hne with hne | hne <;> simp [hne, readExp]

theorem parseMag_ip_dot_fp_exp {ip fp rest : List Char}
    (hip : ∀ c ∈ ip, c.isDigit = true) (hfp : ∀ c ∈ fp, c.isDigit = true)
    (hne : ip ≠ [] ∨ fp ≠ []) :
    parseMag (ip ++ '.' :: (fp ++ 'e' :: rest)) =
      some (((charsVal ip : ℚ) + (charsVal fp : ℚ) / 10 ^ fp.length) *
            (10 : ℚ) ^ readExpAfter rest) := by
  unfold parseMag
  have hspan : spanDigits (ip ++ '.' :: (fp ++ 'e' :: rest)) =
      (ip, '.' :: (fp ++ 'e' :: rest)) :=
    spanDigits_append hip (by intro c hc; simp at hc; subst hc; decide)
  rw [hspan]
  have hspan2 : spanDigits (fp ++ 'e' :: rest) = (fp, 'e' :: rest) :=
    spanDigits_append hfp (by intro c hc; simp at hc; subst hc; decide)
  simp only [hspan2]
  rcases hne with hne | hne <;> simp [hne, readExp]

theorem parseMag_digits_exp {ds rest : List Char}
    (h : ∀ c ∈ ds, c.isDigit = true) (hne : ds ≠ []) :
    parseMag (ds ++ 'e' :: rest) =
      some ((charsVal ds : ℚ) * (10 : ℚ) ^ readExpAfter rest) := by
  unfold parseMag
  have hspan : spanDigits (ds ++ 'e' :: rest) = (ds, 'e' :: rest) :=
    spanDigits_append h (by intro c hc; simp at hc; subst hc; decide)
  rw [hspan]
  simp [hne, readExp, charsVal_nil]

theorem parseNumber_body {c : Char} {cs : List Char} {q : ℚ}
    (hc : c.isDigit = true ∨ c = '.')
    (hm : parseMag (c :: cs) = some q) :
    parseNumber (String.mk (c :: cs)) = .fin q := by
  unfold parseNumber
  have hsp : isJsSpace c = false := by
    rcases hc with h | h
    · exact isJsSpace_of_digit h
    · subst h; decide
  have hI : c ≠ 'I' := by
    rcases hc with h | h
    · exact digit_ne_I h
    · subst h; decide
  have hsign : readSign (c :: cs) = (false, c :: cs) := by
    rcases hc with h | h
    · exact readSign_digit h cs
    · subst h; exact readSign_dot cs
  have hdata : (String.mk (c :: cs)).data = c :: cs := rfl
  have hdrop : (c :: cs).dropWhile (fun x => isJsSpace x) = c :: cs :=
    List.dropWhile_cons_of_neg (by simp [hsp])
  rw [hdata]
  simp only [hdrop, hsign, startsInfinity_false hI, hm]
  simp

theorem parseNumber_body_neg {c : Char} {cs : List Char} {q : ℚ}
    (hc : c.isDigit = true ∨ c = '.')
    (hm : parseMag (c :: cs) = some q) :
    parseNumber (String.mk ('-' :: c :: cs)) = .fin (-q) := by
  unfold parseNumber
  have hI : c ≠ 'I' := by
    rcases hc with h | h
    · exact digit_ne_I h
    · subst h; decide
  have hdata : (String.mk ('-' :: c :: cs)).data = '-' :: c :: cs := rfl
  have hdrop : ('-' :: c :: cs).dropWhile (fun x => isJsSpace x) = '-' :: c :: cs :=
    List.dropWhile_cons_of_neg (by simp [isJsSpace])
  rw [hdata]
  simp only [hdrop, readSign_minus, startsInfinity_false hI, hm]
  simp

theorem reduceScaled_spec : ∀ (s k : ℕ), k ≠ 0 →
    (reduceScaled k s).1 * 10 ^ s = k * 10 ^ (reduceScaled k s).2 ∧
    (reduceScaled k s).1 ≠ 0 ∧ (reduceScaled k s).2 ≤ s ∧
    ((reduceScaled k s).2 = 0 ∨ (reduceScaled k s).1 % 10 ≠ 0) := by
  intro s
  induction s with
  | zero => intro k hk; simp [reduceScaled, hk]
  | succ s ih =>
    intro k hk
    unfold reduceScaled
    by_cases h : k % 10 = 0 ∧ k ≠ 0
    · rw [if_pos h]
      have hk10 : k / 10 ≠ 0 := by
        intro h0
        have := Nat.div_add_mod k 10
        omega
      obtain ⟨ihv, ihnz, ihle, ihcan⟩ := ih (k / 10) hk10
      refine ⟨?_, ihnz, by omega, ihcan⟩
      have hdvd : 10 * (k / 10) = k := by
        have := Nat.div_add_mod k 10
        omega
      calc (reduceScaled (k / 10) s).1 * 10 ^ (s + 1)
          = (reduceScaled (k / 10) s).1 * 10 ^ s * 10 := by ring
        _ = k / 10 * 10 ^ (reduceScaled (k / 10) s).2 * 10 := by rw [ihv]
        _ = 10 * (k / 10) * 10 ^ (reduceScaled (k / 10) s).2 := by ring
        _ = k * 10 ^ (reduceScaled (k / 10) s).2 := by rw [hdvd]
    · rw [if_neg h]
      refine ⟨rfl, hk, le_refl _, Or.inr ?_⟩
      intro hmod
      exact h ⟨hmod, hk⟩

theorem renderPos_head (k s : ℕ) :
    ∃ c cs, renderPos k s = c :: cs ∧ c.isDigit = true := by
  obtain ⟨d, rest, hds⟩ := List.exists_cons_of_ne_nil (natToChars_ne_nil k)
  have hd : d.isDigit = true :=
    natToChars_all_digits k d (by rw [hds]; exact List.mem_cons_self d rest)
  by_cases h0 : s = 0
  · refine ⟨d, rest, ?_, hd⟩
    unfold renderPos
    simp only [if_pos h0, hds]
  · by_cases h1 : s < (natToChars k).length
    · have hm : (natToChars k).length - s ≥ 1 := by omega
      obtain ⟨m, hm'⟩ := Nat.exists_eq_add_of_le hm
      have hmm : (natToChars k).length - s = m + 1 := by omega
      refine ⟨d, List.take m rest ++
        '.' :: List.drop ((natToChars k).length - s) (natToChars k), ?_, hd⟩
      unfold renderPos
      simp only [if_neg h0, if_pos h1]
      rw [hmm]
      conv =>
        lhs
        rw [hds, List.take_succ_cons]
      rw [List.cons_append, hds]
    · by_cases h2 : s - (natToChars k).length < 6
      · refine ⟨'0', '.' :: (List.replicate (s - (natToChars k).length) '0' ++
          natToChars k), ?_, by decide⟩
        unfold renderPos
        simp only [if_neg h0, if_neg h1, if_pos h2]
      · by_cases h3 : rest = []
        · refine ⟨d, 'e' :: '-' :: natToChars (s - (natToChars k).length + 1), ?_, hd⟩
          unfold renderPos
          simp only [if_neg h0, if_neg h1, if_neg h2]
          rw [hds, h3]
          rfl
        · refine ⟨d, ('.' :: rest) ++
            ('e' :: '-' :: natToChars (s - (natToChars k).length + 1)), ?_, hd⟩
          unfold renderPos
          simp only [if_neg h0, if_neg h1, if_neg h2]
          rw [hds]
          simp only [if_neg h3, List.cons_append]

theorem parseMag_mantissa_exp {d : Char} {rest : List Char} {E : ℕ}
    (hd : d.isDigit = true) (hrest : ∀ c ∈ rest, c.isDigit = true) :
    parseMag ((if rest = [] then [d] else d :: '.' :: rest) ++
        ('e' :: '-' :: natToChars E)) =
      some ((charsVal (d :: rest) : ℚ) * (10 : ℚ) ^ (-(E + rest.length : ℤ))) := by
  have h10 : (10 : ℚ) ≠ 0 := by norm_num
  by_cases h3 : rest = []
  · subst h3
    simp only [if_pos rfl]
    rw [parseMag_digits_exp (by intro c hc; simp at hc; subst hc; exact hd)
      (by simp)]
    rw [readExpAfter_minus (natToChars_all_digits E) (natToChars_ne_nil E),
      charsVal_natToChars]
    norm_num
  · simp only [if_neg h3]
    have hbody : (d :: '.' :: rest) ++ ('e' :: '-' :: natToChars E)
        = [d] ++ '.' :: (rest ++ 'e' :: '-' :: natToChars E) := by simp
    rw [hbody, parseMag_ip_dot_fp_exp
      (by intro c hc; simp at hc; subst hc; exact hd) hrest (Or.inl (by simp))]
    rw [readExpAfter_minus (natToChars_all_digits E) (natToChars_ne_nil E),
      charsVal_natToChars]
    congr 1
    have hcv : charsVal (d :: rest) = digitVal d * 10 ^ rest.length + charsVal rest := by
      have := charsVal_append [d] rest
      simpa [charsVal_singleton] using this
    have hzp : (10 : ℚ) ^ (-(E + rest.length : ℤ)) =
        (10 : ℚ) ^ (-(E : ℤ)) / (10 : ℚ) ^ (rest.length : ℕ) := by
      rw [neg_add, zpow_add₀ h10, zpow_neg ((10 : ℚ)) (rest.length : ℤ), zpow_natCast]
      rw [div_eq_mul_inv]
    rw [hcv, hzp]
    have hpL : (10 : ℚ) ^ (rest.length : ℕ) ≠ 0 := by positivity
    rw [charsVal_singleton]
    have hsum : (digitVal d : ℚ) + (charsVal rest : ℚ) / 10 ^ rest.length
        = ((digitVal d : ℚ) * 10 ^ rest.length + (charsVal rest : ℚ)) /
          10 ^ rest.length := by
      field_simp
    rw [hsum, div_mul_eq_mul_div, mul_div_assoc]
    push_cast
    ring

theorem parseMag_renderPos (k s : ℕ) :
    parseMag (renderPos k s) = some ((k : ℚ) / 10 ^ s) := by
  have hdig := natToChars_all_digits k
  have hdsne := natToChars_ne_nil k
  have hval : charsVal (natToChars k) = k := charsVal_natToChars k
  unfold renderPos
  by_cases h0 : s = 0
  · subst h0
    simp only [eq_self_iff_true, if_true]
    rw [parseMag_digits hdig hdsne, hval]
    norm_num
  · simp only [if_neg h0]
    by_cases h1 : s < (natToChars k).length
    · simp only [if_pos h1]
      set ds := natToChars k with hds
      set m := ds.length - s with hm
      have htake : ∀ c ∈ ds.take m, c.isDigit = true :=
        fun c hc => hdig c (List.take_subset m ds hc)
      have hdrop : ∀ c ∈ ds.drop m, c.isDigit = true :=
        fun c hc => hdig c (List.drop_subset m ds hc)
      have hlen : ds.length ≠ 0 := fun hh => hdsne (List.length_eq_zero.mp hh)
      have htne : ds.take m ≠ [] := by
        intro hnil
        have h2 := congrArg List.length hnil
        simp only [List.length_take, List.length_nil] at h2
        omega
      rw [parseMag_ip_dot_fp htake hdrop (Or.inl htne)]
      have hldrop : (ds.drop m).length = s := by
        simp only [List.length_drop]
        omega
      have hsplit : charsVal (ds.take m) * 10 ^ s + charsVal (ds.drop m) = k := by
        have hca := charsVal_append (ds.take m) (ds.drop m)
        rw [List.take_append_drop, hval, hldrop] at hca
        omega
      rw [hldrop]
      congr 1
      have heq : ((charsVal (ds.take m) : ℚ) + (charsVal (ds.drop m) : ℚ) / 10 ^ s)
          = ((charsVal (ds.take m) * 10 ^ s + charsVal (ds.drop m) : ℕ) : ℚ) / 10 ^ s := by
        push_cast
        field_simp
      rw [heq, hsplit]
    · by_cases h2 : s - (natToChars k).length < 6
      · simp only [if_neg h1, if_pos h2]
        have hfp : ∀ c ∈ List.replicate (s - (natToChars k).length) '0' ++ natToChars k,
            c.isDigit = true := by
          intro c hc
          rcases List.mem_append.mp hc with hc | hc
          · rw [List.eq_of_mem_replicate hc]; decide
          · exact hdig c hc
        have hbody : ('0' :: '.' :: (List.replicate (s - (natToChars k).length) '0' ++
            natToChars k)) = ['0'] ++ '.' :: (List.replicate (s - (natToChars k).length) '0' ++
            natToChars k) := rfl
        rw [hbody, parseMag_ip_dot_fp (by intro c hc; simp at hc; subst hc; decide) hfp
          (Or.inl (by simp))]
        have hlen2 : (List.replicate (s - (natToChars k).length) '0' ++
            natToChars k).length = s := by
          simp only [List.length_append, List.length_replicate]
          omega
        have hvfp : charsVal (List.replicate (s - (natToChars k).length) '0' ++
            natToChars k) = k := by
          rw [charsVal_append, charsVal_replicate_zero, hval]
          ring
        rw [hlen2, hvfp]
        have hv0 : charsVal ['0'] = 0 := by decide
        rw [hv0]
        norm_num
      · simp only [if_neg h1, if_neg h2]
        obtain ⟨d, rest, hds⟩ := List.exists_cons_of_ne_nil hdsne
        have hd : d.isDigit = true := hdig d (by rw [hds]; exact List.mem_cons_self d rest)
        have hrest : ∀ c ∈ rest, c.isDigit = true :=
          fun c hc => hdig c (by rw [hds]; exact List.mem_cons_of_mem d hc)
        rw [hds]
        have hmm := parseMag_mantissa_exp (E := 0) hd hrest
        -- re-derive with the right exponent
        rw [show (match d :: rest with
            | [] => ([] : List Char)
            | d :: rest => if rest = [] then [d] else d :: '.' :: rest)
          = (if rest = [] then [d] else d :: '.' :: rest) from rfl]
        rw [parseMag_mantissa_exp hd hrest]
        congr 1
        have hlen3 : (natToChars k).length = rest.length + 1 := by
          rw [hds]; rfl
        have hse : s - (natToChars k).length + 1 + rest.length = s := by omega
        rw [← hds, hlen3] at *
        rw [show ((s - (rest.length + 1) + 1 : ℕ) + (rest.length : ℤ)) = (s : ℤ) from by
          push_cast
          omega]
        rw [← hds, hval]
        rw [zpow_neg, zpow_natCast]
        rw [div_eq_mul_inv]

theorem parse_jsToStringScaled (k : ℤ) (s : ℕ) :
    parseNumber (String.mk (jsToStringScaled k s)) = .fin ((k : ℚ) / 10 ^ s) := by
  unfold jsToStringScaled
  by_cases hk : k = 0
  · subst hk
    rw [if_pos rfl]
    have h0 : parseMag ['0'] = some (charsVal ['0']) :=
      parseMag_digits (by intro c hc; simp at hc; subst hc; decide) (by simp)
    rw [parseNumber_body (Or.inl (by decide)) h0]
    norm_num
    decide
  · rw [if_neg hk]
    have hnz : k.natAbs ≠ 0 := Int.natAbs_ne_zero.mpr hk
    obtain ⟨hrv, hrnz, _, _⟩ := reduceScaled_spec s k.natAbs hnz
    obtain ⟨c, cs, hcons, hcd⟩ := renderPos_head (reduceScaled k.natAbs s).1
      (reduceScaled k.natAbs s).2
    have hmag : parseMag (renderPos (reduceScaled k.natAbs s).1
        (reduceScaled k.natAbs s).2) =
        some (((reduceScaled k.natAbs s).1 : ℚ) / 10 ^ (reduceScaled k.natAbs s).2) :=
      parseMag_renderPos _ _
    have hvalq : (((reduceScaled k.natAbs s).1 : ℚ) / 10 ^ (reduceScaled k.natAbs s).2)
        = (k.natAbs : ℚ) / 10 ^ s := by
      have hc1 : ((reduceScaled k.natAbs s).1 * 10 ^ s : ℕ) =
          (k.natAbs * 10 ^ (reduceScaled k.natAbs s).2 : ℕ) := hrv
      have hc2 : (((reduceScaled k.natAbs s).1 : ℚ)) * 10 ^ s =
          (k.natAbs : ℚ) * 10 ^ (reduceScaled k.natAbs s).2 := by
        exact_mod_cast congrArg (fun n : ℕ => (n : ℚ)) hc1
      rw [div_eq_div_iff (by positivity) (by positivity)]
      linarith [hc2]
    show parseNumber (String.mk ((if k < 0 then ['-'] else []) ++
        renderPos (reduceScaled k.natAbs s).1 (reduceScaled k.natAbs s).2)) =
      JNum.fin ((k : ℚ) / 10 ^ s)
    by_cases hneg : k < 0
    · rw [if_pos hneg, hcons]
      show parseNumber (String.mk ('-' :: c :: cs)) = JNum.fin ((k : ℚ) / 10 ^ s)
      rw [parseNumber_body_neg (Or.inl hcd) (by rw [← hcons]; exact hmag)]
      rw [hvalq]
      congr 1
      have habs : (k.natAbs : ℚ) = -(k : ℚ) := by
        rw [Int.cast_natAbs, abs_of_neg hneg]
        push_cast
        ring
      rw [habs]
      ring
    · rw [if_neg hneg, List.nil_append, hcons]
      rw [parseNumber_body (Or.inl hcd) (by rw [← hcons]; exact hmag)]
      rw [hvalq]
      congr 1
      have habs : (k.natAbs : ℚ) = (k : ℚ) := by
        rw [Int.cast_natAbs, abs_of_nonneg (not_lt.mp hneg)]
      rw [habs]

theorem jsRoundZ_int (n : ℤ) : jsRoundZ (n : ℚ) = n := by
  unfold jsRoundZ
  rw [Int.floor_eq_iff]
  constructor
  · push_cast; linarith
  · push_cast; linarith

theorem jsRoundZ_bounds (q : ℚ) : (jsRoundZ q : ℚ) ≤ q + 1 / 2 ∧ q - 1 / 2 < jsRoundZ q := by
  unfold jsRoundZ
  constructor
  · exact Int.floor_le (q + 1 / 2)
  · have := Int.lt_floor_add_one (q + 1 / 2)
    linarith

theorem decExpNat_bounds {y : ℚ} (hy : 1 ≤ y) :
    (10 : ℚ) ^ decExpNat y ≤ y ∧ y < (10 : ℚ) ^ (decExpNat y + 1) := by
  unfold decExpNat
  have hfl : (1 : ℤ) ≤ ⌊y⌋ := by
    rw [Int.le_floor]; exact_mod_cast hy
  set n := ⌊y⌋.toNat with hn
  have hn1 : n ≠ 0 := by omega
  have hnfl : (n : ℤ) = ⌊y⌋ := Int.toNat_of_nonneg (by omega)
  obtain ⟨hlo, hhi⟩ := natToChars_length_bounds hn1
  have hL : digitsLen n ≠ 0 := by
    unfold digitsLen
    intro hc
    exact natToChars_ne_nil n (List.length_eq_zero.mp hc)
  have hny : (n : ℚ) ≤ y := by
    have h4 := Int.floor_le y
    rw [← hnfl] at h4
    exact_mod_cast h4
  constructor
  · have hlo' : (10 : ℚ) ^ (digitsLen n - 1) ≤ (n : ℚ) := by
      unfold digitsLen
      exact_mod_cast hlo
    linarith
  · have h1 : y < (⌊y⌋ : ℚ) + 1 := Int.lt_floor_add_one y
    have h2 : ((n : ℚ) + 1) ≤ (10 : ℚ) ^ digitsLen n := by
      have h5 : n + 1 ≤ 10 ^ digitsLen n := hhi
      exact_mod_cast h5
    have h3 : digitsLen n - 1 + 1 = digitsLen n := by omega
    rw [h3]
    rw [← hnfl] at h1
    push_cast at h1
    linarith

theorem expRound_spec {y : ℚ} (hy : 1 ≤ y) :
    10 ^ 6 ≤ (expRound y).1 ∧ (expRound y).1 < 10 ^ 7 ∧
    (10 : ℚ) ^ (expRound y).2 ≤ ((expRound y).1 : ℚ) / 10 ^ 6 * 10 ^ (expRound y).2 ∧
    ((expRound y).1 : ℚ) / 10 ^ 6 * 10 ^ (expRound y).2 < (10 : ℚ) ^ ((expRound y).2 + 1) ∧
    decExpNat y ≤ (expRound y).2 := by
  obtain ⟨hlo, hhi⟩ := decExpNat_bounds hy
  set e := decExpNat y with he
  set z : ℚ := y * 10 ^ 6 / 10 ^ e with hz
  have hpe : (0 : ℚ) < 10 ^ e := by positivity
  have hzlo : (10 : ℚ) ^ 6 ≤ z := by
    rw [hz, le_div_iff hpe]
    calc (10 : ℚ) ^ 6 * 10 ^ e = 10 ^ e * 10 ^ 6 := by ring
    _ ≤ y * 10 ^ 6 := by nlinarith
  have hzhi : z < (10 : ℚ) ^ 7 := by
    rw [hz, div_lt_iff hpe]
    calc y * 10 ^ 6 < 10 ^ (e + 1) * 10 ^ 6 := by nlinarith
    _ = 10 ^ 7 * 10 ^ e := by ring
  obtain ⟨hr1, hr2⟩ := jsRoundZ_bounds z
  have hm0lo : (10 ^ 6 : ℤ) ≤ jsRoundZ z := by
    by_contra hcon
    push_neg at hcon
    have h5 : jsRoundZ z ≤ 10 ^ 6 - 1 := by omega
    have h6 : (jsRoundZ z : ℚ) ≤ (10 : ℚ) ^ 6 - 1 := by exact_mod_cast h5
    linarith
  have hm0hi : jsRoundZ z ≤ (10 ^ 7 : ℤ) := by
    by_contra hcon
    push_neg at hcon
    have h5 : (10 ^ 7 + 1 : ℤ) ≤ jsRoundZ z := by omega
    have h6 : (10 : ℚ) ^ 7 + 1 ≤ (jsRoundZ z : ℚ) := by exact_mod_cast h5
    linarith
  set m0 : ℕ := (jsRoundZ z).toNat with hm0
  have hm0n : (m0 : ℤ) = jsRoundZ z := Int.toNat_of_nonneg (by omega)
  have hm0lo' : 10 ^ 6 ≤ m0 := by omega
  have hm0hi' : m0 ≤ 10 ^ 7 := by omega
  have hshape : expRound y = if m0 = 10 ^ 7 then (10 ^ 6, e + 1) else (m0, e) := rfl
  by_cases hcar : m0 = 10 ^ 7
  · rw [hshape, if_pos hcar]
    refine ⟨by norm_num, by norm_num, ?_, ?_, by omega⟩
    · show (10 : ℚ) ^ (e + 1) ≤ ((10 ^ 6 : ℕ) : ℚ) / 10 ^ 6 * 10 ^ (e + 1)
      have hq : ((10 ^ 6 : ℕ) : ℚ) / 10 ^ 6 = 1 := by norm_num
      rw [hq, one_mul]
    · show ((10 ^ 6 : ℕ) : ℚ) / 10 ^ 6 * 10 ^ (e + 1) < (10 : ℚ) ^ (e + 1 + 1)
      have hq : ((10 ^ 6 : ℕ) : ℚ) / 10 ^ 6 = 1 := by norm_num
      rw [hq, one_mul]
      have h7 : (0 : ℚ) < 10 ^ (e + 1) := by positivity
      calc (10 : ℚ) ^ (e + 1) < 10 ^ (e + 1) * 10 := by linarith
      _ = 10 ^ (e + 1 + 1) := by ring
  · rw [hshape, if_neg hcar]
    have hm0hi2 : m0 < 10 ^ 7 := by omega
    refine ⟨hm0lo', hm0hi2, ?_, ?_, le_refl e⟩
    · show (10 : ℚ) ^ e ≤ (m0 : ℚ) / 10 ^ 6 * 10 ^ e
      have hm : (10 ^ 6 : ℚ) ≤ (m0 : ℚ) := by exact_mod_cast hm0lo'
      have h6 : (0 : ℚ) < 10 ^ 6 := by positivity
      have : (1 : ℚ) ≤ (m0 : ℚ) / 10 ^ 6 := by
        rw [le_div_iff h6]; linarith
      nlinarith
    · show (m0 : ℚ) / 10 ^ 6 * 10 ^ e < (10 : ℚ) ^ (e + 1)
      have hm : (m0 : ℚ) < 10 ^ 7 := by exact_mod_cast hm0hi2
      have h6 : (0 : ℚ) < 10 ^ 6 := by positivity
      have hdiv : (m0 : ℚ) / 10 ^ 6 < 10 := by
        rw [div_lt_iff h6]; linarith
      calc (m0 : ℚ) / 10 ^ 6 * 10 ^ e < 10 * 10 ^ e := by nlinarith
      _ = 10 ^ (e + 1) := by ring

theorem parseMag_exp_plus_shape {d : Char} {rest : List Char} {E : ℕ}
    (hd : d.isDigit = true) (hrest : ∀ c ∈ rest, c.isDigit = true) :
    parseMag ((d :: '.' :: rest) ++ ('e' :: '+' :: natToChars E)) =
      some ((charsVal (d :: rest) : ℚ) / 10 ^ rest.length * 10 ^ E) := by
  have h10 : (10 : ℚ) ≠ 0 := by norm_num
  have hbody : (d :: '.' :: rest) ++ ('e' :: '+' :: natToChars E)
      = [d] ++ '.' :: (rest ++ 'e' :: '+' :: natToChars E) := by simp
  rw [hbody, parseMag_ip_dot_fp_exp
    (by intro c hc; simp at hc; subst hc; exact hd) hrest (Or.inl (by simp))]
  rw [readExpAfter_plus (natToChars_all_digits E) (natToChars_ne_nil E),
    charsVal_natToChars]
  congr 1
  have hcv : charsVal (d :: rest) = digitVal d * 10 ^ rest.length + charsVal rest := by
    have := charsVal_append [d] rest
    simpa [charsVal_singleton] using this
  rw [hcv, charsVal_singleton]
  have hpL : (10 : ℚ) ^ (rest.length : ℕ) ≠ 0 := by positivity
  rw [zpow_natCast]
  have hsum : (digitVal d : ℚ) + (charsVal rest : ℚ) / 10 ^ rest.length
      = ((digitVal d : ℚ) * 10 ^ rest.length + (charsVal rest : ℚ)) /
        10 ^ rest.length := by
    field_simp
  rw [hsum]
  push_cast
  ring

theorem natToChars_expRound {y : ℚ} (hy : 1 ≤ y) :
    ∃ d rest, natToChars (expRound y).1 = d :: rest ∧ rest.length = 6 ∧
      d.isDigit = true ∧ (∀ c ∈ rest, c.isDigit = true) := by
  obtain ⟨hm6, hm7, _, _, _⟩ := expRound_spec hy
  have hMne : (expRound y).1 ≠ 0 := by
    intro h
    rw [h] at hm6
    norm_num at hm6
  have hle7 : digitsLen (expRound y).1 ≤ 7 := (digitsLen_le_iff hMne).mpr hm7
  have hgt6 : ¬ digitsLen (expRound y).1 ≤ 6 := by
    intro h
    have := (digitsLen_le_iff hMne).mp h
    omega
  have hlen : (natToChars (expRound y).1).length = 7 := by
    unfold digitsLen at hle7 hgt6
    omega
  obtain ⟨d, rest, hds⟩ := List.exists_cons_of_ne_nil (natToChars_ne_nil (expRound y).1)
  refine ⟨d, rest, hds, ?_, ?_, ?_⟩
  · have := congrArg List.length hds
    rw [hlen] at this
    simp at this
    omega
  · exact natToChars_all_digits _ d (by rw [hds]; exact List.mem_cons_self d rest)
  · exact fun c hc => natToChars_all_digits _ c (by rw [hds]; exact List.mem_cons_of_mem d hc)

theorem parse_toExponential6 {x : ℚ} (hx : 1 ≤ |x|) :
    parseNumber (String.mk (toExponential6 x)) =
      .fin ((if x < 0 then -1 else 1) *
        (((expRound |x|).1 : ℚ) / 10 ^ 6 * 10 ^ (expRound |x|).2)) := by
  obtain ⟨d, rest, hds, hrl, hd, hrest⟩ := natToChars_expRound hx
  have hval : charsVal (d :: rest) = (expRound |x|).1 := by
    rw [← hds]; exact charsVal_natToChars _
  have hmag : parseMag ((d :: '.' :: rest) ++ ('e' :: '+' :: natToChars (expRound |x|).2)) =
      some (((expRound |x|).1 : ℚ) / 10 ^ 6 * 10 ^ (expRound |x|).2) := by
    rw [parseMag_exp_plus_shape hd hrest, hval, hrl]
  have hmag2 : parseMag (d :: ('.' :: rest ++ ('e' :: '+' :: natToChars (expRound |x|).2))) =
      some (((expRound |x|).1 : ℚ) / 10 ^ 6 * 10 ^ (expRound |x|).2) := by
    rw [show d :: ('.' :: rest ++ ('e' :: '+' :: natToChars (expRound |x|).2)) =
      (d :: '.' :: rest) ++ ('e' :: '+' :: natToChars (expRound |x|).2) from by simp]
    exact hmag
  unfold toExponential6
  rw [hds]
  by_cases hneg : x < 0
  · rw [if_pos hneg]
    show parseNumber (String.mk ('-' :: d ::
      ('.' :: rest ++ ('e' :: '+' :: natToChars (expRound |x|).2)))) = _
    rw [parseNumber_body_neg (Or.inl hd) hmag2]
    rw [if_pos hneg]
    congr 1
    ring
  · rw [if_neg hneg]
    show parseNumber (String.mk (d ::
      ('.' :: rest ++ ('e' :: '+' :: natToChars (expRound |x|).2)))) = _
    rw [parseNumber_body (Or.inl hd) hmag2]
    rw [if_neg hneg]
    congr 1
    ring

theorem expRound_stable {y : ℚ} (hy : 1 ≤ y) :
    expRound (((expRound y).1 : ℚ) / 10 ^ 6 * 10 ^ (expRound y).2) = expRound y := by
  obtain ⟨hm6, hm7, hvlo, hvhi, _⟩ := expRound_spec hy
  set M := (expRound y).1 with hM
  set E := (expRound y).2 with hE
  set v : ℚ := (M : ℚ) / 10 ^ 6 * 10 ^ E with hv
  have hfloor : decExpNat v = E := by
    unfold decExpNat
    have hfl1 : ((10 ^ E : ℕ) : ℤ) ≤ ⌊v⌋ := by
      rw [Int.le_floor]
      push_cast
      exact_mod_cast hvlo
    have hfl2 : ⌊v⌋ < ((10 ^ (E + 1) : ℕ) : ℤ) := by
      rw [Int.floor_lt]
      push_cast
      exact_mod_cast hvhi
    set a := (10 : ℕ) ^ E with ha
    set b := (10 : ℕ) ^ (E + 1) with hb
    set n := ⌊v⌋.toNat with hn
    have hnb : a ≤ n ∧ n < b := by omega
    have hnne : n ≠ 0 := by
      have : 1 ≤ a := Nat.one_le_pow _ _ (by norm_num)
      omega
    have h1 : digitsLen n ≤ E + 1 := (digitsLen_le_iff hnne).mpr hnb.2
    have h2 : ¬ digitsLen n ≤ E := by
      intro h
      have := (digitsLen_le_iff hnne).mp h
      omega
    omega
  have hz : v * 10 ^ 6 / 10 ^ E = (M : ℚ) := by
    rw [hv]
    have h1 : (0 : ℚ) < 10 ^ E := by positivity
    have h2 : (0 : ℚ) < 10 ^ 6 := by positivity
    field_simp
  have hrd : jsRoundZ ((M : ℕ) : ℚ) = (M : ℤ) := by
    have := jsRoundZ_int (M : ℤ)
    rw [show (((M : ℤ)) : ℚ) = ((M : ℕ) : ℚ) from by push_cast; ring] at this
    exact this
  unfold expRound
  rw [hfloor, hz, hrd]
  rw [show ((M : ℤ)).toNat = M from by omega]
  rw [if_neg (by omega : ¬ M = 10 ^ 7)]
  show (M, E) = expRound y
  rw [hM, hE]

theorem stripTailZeros_noop {cs : List Char} (h : cs.getLast? ≠ some '0') :
    stripTailZeros cs = cs := by
  simp only [stripTailZeros, List.head?_reverse]
  rw [if_neg h]

theorem digitChar_ne_zeroChar {d : ℕ} (h1 : d < 10) (h2 : d ≠ 0) : digitChar d ≠ '0' := by
  interval_cases d <;> first | omega | decide

theorem natToChars_getLast {n : ℕ} (h : n ≠ 0) :
    (natToChars n).getLast? = some (digitChar (n % 10)) := by
  unfold natToChars natToCharsAux
  rw [if_neg h, if_neg h]
  exact List.getLast?_concat _

theorem contains_eq_false_of_digits {cs : List Char}
    (h : ∀ c ∈ cs, c.isDigit = true) : cs.contains '.' = false := by
  induction cs with
  | nil => rfl
  | cons c cs ih =>
    have hc : c.isDigit = true := h c (List.mem_cons_self c cs)
    have hne : ('.' == c) = false := by
      have : c ≠ '.' := by
        intro hcc; subst hcc; simp [Char.isDigit] at hc
      simp [beq_iff_eq]
      intro hcc
      exact absurd hcc.symm this
    simp only [List.contains_cons, hne, Bool.false_or]
    exact ih (fun c hc => h c (List.mem_cons_of_mem _ hc))

theorem contains_iff_mem {cs : List Char} {a : Char} : cs.contains a = true ↔ a ∈ cs := by
  simp [List.contains, List.elem_iff]

theorem renderPos_getLast_ne_zero {k s : ℕ} (hk : k ≠ 0)
    (hcan : s = 0 ∨ k % 10 ≠ 0) (hs : s ≤ 10)
    (hdot : (renderPos k s).contains '.' = true) :
    (renderPos k s).getLast? ≠ some '0' := by
  have hlast : (natToChars k).getLast? = some (digitChar (k % 10)) := natToChars_getLast hk
  have hmod : k % 10 < 10 := Nat.mod_lt _ (by norm_num)
  unfold renderPos at hdot ⊢
  by_cases h0 : s = 0
  · exfalso
    rw [if_pos h0] at hdot
    rw [contains_eq_false_of_digits (natToChars_all_digits k)] at hdot
    exact Bool.false_ne_true hdot
  · have hcan' : k % 10 ≠ 0 := by
      rcases hcan with h | h
      · exact absurd h h0
      · exact h
    have hgl : digitChar (k % 10) ≠ '0' := digitChar_ne_zeroChar hmod hcan'
    simp only [if_neg h0] at hdot ⊢
    by_cases h1 : s < (natToChars k).length
    · simp only [if_pos h1] at hdot ⊢
      have hdrne : (natToChars k).drop ((natToChars k).length - s) ≠ [] := by
        intro hc
        have h4 := congrArg List.length hc
        simp only [List.length_drop, List.length_nil] at h4
        omega
      rw [List.getLast?_append_of_ne_nil _
        (by simp : ('.' :: (natToChars k).drop ((natToChars k).length - s)) ≠ [])]
      rw [show ('.' :: (natToChars k).drop ((natToChars k).length - s))
        = ['.'] ++ (natToChars k).drop ((natToChars k).length - s) from rfl]
      rw [List.getLast?_append_of_ne_nil _ hdrne]
      have h3 : (natToChars k).getLast? =
          ((natToChars k).drop ((natToChars k).length - s)).getLast? := by
        conv =>
          lhs
          rw [← List.take_append_drop ((natToChars k).length - s) (natToChars k)]
        exact List.getLast?_append_of_ne_nil _ hdrne
      rw [← h3, hlast]
      intro hcc
      exact hgl (Option.some.inj hcc)
    · by_cases h2 : s - (natToChars k).length < 6
      · simp only [if_neg h1, if_pos h2] at hdot ⊢
        have hdsne := natToChars_ne_nil k
        rw [show ('0' :: '.' :: (List.replicate (s - (natToChars k).length) '0' ++ natToChars k))
          = (['0', '.'] ++ List.replicate (s - (natToChars k).length) '0') ++ natToChars k
          from by simp]
        rw [List.getLast?_append_of_ne_nil _ hdsne, hlast]
        intro hcc
        exact hgl (Option.some.inj hcc)
      · simp only [if_neg h1, if_neg h2] at hdot ⊢
        obtain ⟨d, rest, hds⟩ := List.exists_cons_of_ne_nil (natToChars_ne_nil k)
        have hdd : d.isDigit = true :=
          natToChars_all_digits k d (by rw [hds]; exact List.mem_cons_self d rest)
        rw [hds] at hdot ⊢
        by_cases h3 : rest = []
        · exfalso
          rw [show (match d :: rest with
              | [] => ([] : List Char)
              | d :: rest => if rest = [] then [d] else d :: '.' :: rest)
            = (if rest = [] then [d] else d :: '.' :: rest) from rfl, if_pos h3] at hdot
          have hmem := contains_iff_mem.mp hdot
          rcases List.mem_append.mp hmem with hmem | hmem
          · simp only [List.mem_singleton] at hmem
            subst hmem
            simp [Char.isDigit] at hdd
          · rcases hmem with _ | ⟨_, hmem⟩
            rcases hmem with _ | ⟨_, hmem⟩
            have := natToChars_all_digits _ _ hmem
            simp [Char.isDigit] at this
        · rw [show (match d :: rest with
              | [] => ([] : List Char)
              | d :: rest => if rest = [] then [d] else d :: '.' :: rest)
            = (if rest = [] then [d] else d :: '.' :: rest) from rfl, if_neg h3] at hdot ⊢
          have hrl : 1 ≤ rest.length := by
            rcases List.exists_cons_of_ne_nil h3 with ⟨c2, r2, hr2⟩
            rw [hr2]
            simp
          have h2' : ¬ s - (rest.length + 1) < 6 := by
            rw [hds, List.length_cons] at h2
            exact h2
          set E := s - (d :: rest).length + 1 with hE
          have hEv : E = s - (rest.length + 1) + 1 := by
            rw [hE, List.length_cons]
          have hE7 : 7 ≤ E := by omega
          have hE9 : E ≤ 9 := by
            rw [hds, List.length_cons] at h1
            omega
          have hEne := natToChars_ne_nil E
          rw [show ((d :: '.' :: rest) ++ 'e' :: '-' :: natToChars E)
            = ((d :: '.' :: rest) ++ ['e', '-']) ++ natToChars E from by simp]
          rw [List.getLast?_append_of_ne_nil _ hEne]
          rw [natToChars_getLast (by omega)]
          rw [Nat.mod_eq_of_lt (by omega)]
          intro hcc
          exact digitChar_ne_zeroChar (by omega) (by omega) (Option.some.inj hcc)

theorem jsToStringScaled_strip {k : ℤ} {s : ℕ} (hs : s ≤ 10) :
    (if (jsToStringScaled k s).contains '.' = true then stripTailZeros (jsToStringScaled k s)
     else jsToStringScaled k s) = jsToStringScaled k s := by
  by_cases hdot : (jsToStringScaled k s).contains '.' = true
  · rw [if_pos hdot]
    apply stripTailZeros_noop
    unfold jsToStringScaled at hdot ⊢
    by_cases hk : k = 0
    · rw [if_pos hk] at hdot
      exact absurd hdot (by decide)
    · rw [if_neg hk] at hdot ⊢
      obtain ⟨hrv, hrnz, hrle, hrcan⟩ :=
        reduceScaled_spec s k.natAbs (Int.natAbs_ne_zero.mpr hk)
      show ((if k < 0 then ['-'] else []) ++
        renderPos (reduceScaled k.natAbs s).1 (reduceScaled k.natAbs s).2).getLast? ≠ some '0'
      obtain ⟨c, cs, hcons, _⟩ :=
        renderPos_head (reduceScaled k.natAbs s).1 (reduceScaled k.natAbs s).2
      have hne : renderPos (reduceScaled k.natAbs s).1 (reduceScaled k.natAbs s).2 ≠ [] := by
        rw [hcons]; simp
      have hdot2 : (renderPos (reduceScaled k.natAbs s).1
          (reduceScaled k.natAbs s).2).contains '.' = true := by
        change ((if k < 0 then ['-'] else []) ++
          renderPos (reduceScaled k.natAbs s).1
            (reduceScaled k.natAbs s).2).contains '.' = true at hdot
        by_cases hneg : k < 0
        · rw [if_pos hneg] at hdot
          rw [show (['-'] ++ renderPos (reduceScaled k.natAbs s).1
              (reduceScaled k.natAbs s).2)
            = '-' :: renderPos (reduceScaled k.natAbs s).1 (reduceScaled k.natAbs s).2
            from rfl] at hdot
          simp only [List.contains_cons] at hdot
          have hbeq : ('.' == '-') = false := by decide
          rw [hbeq, Bool.false_or] at hdot
          exact hdot
        · rw [if_neg hneg, List.nil_append] at hdot
          exact hdot
      rw [List.getLast?_append_of_ne_nil _ hne]
      exact renderPos_getLast_ne_zero hrnz hrcan (le_trans hrle hs) hdot2
  · rw [if_neg hdot]

theorem formattedStr_eq (k : ℤ) : formattedStr k = jsToStringScaled k 10 := by
  unfold formattedStr
  exact jsToStringScaled_strip (le_refl 10)

theorem jsToStringScaled_lt_of_length_le {k : ℤ} {s m : ℕ} (hk : k ≠ 0)
    (hlen : (jsToStringScaled k s).length ≤ m) :
    k.natAbs < 10 ^ (m + s) := by
  unfold jsToStringScaled at hlen
  rw [if_neg hk] at hlen
  obtain ⟨hrv, hrnz, hrle, _⟩ := reduceScaled_spec s k.natAbs (Int.natAbs_ne_zero.mpr hk)
  set k1 := (reduceScaled k.natAbs s).1 with hk1
  set s1 := (reduceScaled k.natAbs s).2 with hs1
  have hlen2 : (renderPos k1 s1).length ≤ m := by
    change ((if k < 0 then ['-'] else []) ++ renderPos k1 s1).length ≤ m at hlen
    rw [List.length_append] at hlen
    omega
  set L := (natToChars k1).length with hL
  have hLne : L ≠ 0 := by
    intro hc
    exact natToChars_ne_nil k1 (List.length_eq_zero.mp hc)
  obtain ⟨hk1lo, hk1hi⟩ := natToChars_length_bounds hrnz
  by_cases hc1 : s1 ≥ L
  · -- integer part is zero: |k| < 10^s already
    have h1 : k.natAbs * 10 ^ s1 < 10 ^ s1 * 10 ^ s := by
      calc k.natAbs * 10 ^ s1 = k1 * 10 ^ s := by rw [← hrv]
      _ < 10 ^ L * 10 ^ s :=
          (Nat.mul_lt_mul_right (pow_pos (by norm_num) s)).mpr hk1hi
      _ ≤ 10 ^ s1 * 10 ^ s := by
          have : (10 : ℕ) ^ L ≤ 10 ^ s1 := Nat.pow_le_pow_right (by norm_num) hc1
          exact Nat.mul_le_mul_right _ this
    have h2 : k.natAbs < 10 ^ s := by
      have hp : 0 < (10 : ℕ) ^ s1 := by positivity
      calc k.natAbs = k.natAbs * 10 ^ s1 / 10 ^ s1 := by
            rw [Nat.mul_div_cancel _ hp]
      _ < 10 ^ s1 * 10 ^ s / 10 ^ s1 := by
            apply Nat.div_lt_div_of_lt_of_dvd ⟨10 ^ s, by ring⟩ h1
      _ = 10 ^ s := by
            rw [Nat.mul_div_cancel_left _ hp]
    calc k.natAbs < 10 ^ s := h2
    _ ≤ 10 ^ (m + s) := Nat.pow_le_pow_right (by norm_num) (by omega)
  · push_neg at hc1
    -- integer part nonzero: the rendering is at least L characters long
    have hrl : L ≤ (renderPos k1 s1).length := by
      unfold renderPos
      by_cases h0 : s1 = 0
      · rw [if_pos h0]
      · rw [if_neg h0, if_pos (by omega : s1 < (natToChars k1).length)]
        rw [List.length_append, List.length_take, List.length_cons, List.length_drop]
        omega
    have hLm : L ≤ m := le_trans hrl hlen2
    -- k.natAbs * 10^s1 = k1 * 10^s < 10^L * 10^s = 10^(L+s-s1) * 10^s1
    have hss1 : s1 ≤ s := hrle
    have h1 : k.natAbs * 10 ^ s1 < 10 ^ (L + s - s1) * 10 ^ s1 := by
      calc k.natAbs * 10 ^ s1 = k1 * 10 ^ s := by rw [← hrv]
      _ < 10 ^ L * 10 ^ s :=
          (Nat.mul_lt_mul_right (pow_pos (by norm_num) s)).mpr hk1hi
      _ = 10 ^ (L + s - s1) * 10 ^ s1 := by
          rw [← pow_add, ← pow_add]
          congr 1
          omega
    have h2 : k.natAbs < 10 ^ (L + s - s1) :=
      Nat.lt_of_mul_lt_mul_right h1
    calc k.natAbs < 10 ^ (L + s - s1) := h2
    _ ≤ 10 ^ (m + s) := Nat.pow_le_pow_right (by norm_num) (by omega)

theorem roundedNum_scaled (k : ℤ) : roundedNum ((k : ℚ) / 10 ^ 10) = k := by
  unfold roundedNum
  rw [show ((k : ℚ) / 10 ^ 10 * 10 ^ 10) = (k : ℚ) from by field_simp]
  exact jsRoundZ_int k

theorem formatResult_roundTrip_noTrunc {x : ℚ} {m : ℕ}
    (hlt : |x| < 10 ^ m)
    (hlen : (formattedStr (roundedNum x)).length ≤ m) :
    formatResult (parseNumber (formatResult (.fin x) m)) m = formatResult (.fin x) m := by
  set k := roundedNum x with hk
  have hthr : ¬ 10 ^ m ≤ |x| := not_le.mpr hlt
  have hfmt : formatResult (.fin x) m = String.mk (formattedStr k) := by
    show (if 10 ^ m ≤ |x| then String.mk (toExponential6 x)
      else if m < (formattedStr (roundedNum x)).length then
        String.mk (fixedFallback (roundedNum x) m)
      else String.mk (formattedStr (roundedNum x))) = String.mk (formattedStr k)
    rw [if_neg hthr, if_neg (not_lt.mpr hlen)]
  rw [hfmt, formattedStr_eq, parse_jsToStringScaled]
  set r : ℚ := (k : ℚ) / 10 ^ 10 with hr
  have hthr2 : ¬ 10 ^ m ≤ |r| := by
    by_cases hk0 : k = 0
    · have hr0 : |r| = 0 := by rw [hr, hk0]; norm_num
      rw [hr0]
      exact not_le.mpr (by positivity)
    · have hlen2 : (jsToStringScaled k 10).length ≤ m := by
        rw [← formattedStr_eq]
        exact hlen
      have h1 : k.natAbs < 10 ^ (m + 10) := jsToStringScaled_lt_of_length_le hk0 hlen2
      rw [not_le]
      rw [hr, abs_div, abs_of_pos (by positivity : (0 : ℚ) < 10 ^ 10)]
      rw [div_lt_iff (by positivity : (0 : ℚ) < 10 ^ 10)]
      have h2 : |(k : ℚ)| = (k.natAbs : ℚ) := by
        rw [Int.cast_natAbs, Int.cast_abs]
      rw [h2]
      have h3 : (k.natAbs : ℚ) < ((10 ^ (m + 10) : ℕ) : ℚ) := by exact_mod_cast h1
      calc (k.natAbs : ℚ) < ((10 ^ (m + 10) : ℕ) : ℚ) := h3
      _ = 10 ^ m * 10 ^ 10 := by push_cast; ring
  have hround : roundedNum r = k := roundedNum_scaled k
  show (if 10 ^ m ≤ |r| then String.mk (toExponential6 r)
    else if m < (formattedStr (roundedNum r)).length then
      String.mk (fixedFallback (roundedNum r) m)
    else String.mk (formattedStr (roundedNum r))) = String.mk (jsToStringScaled k 10)
  rw [if_neg hthr2, hround, formattedStr_eq, if_neg (not_lt.mpr (by
    rw [← formattedStr_eq] at *
    exact hlen))]

theorem formatResult_roundTrip_exp {x : ℚ} {m : ℕ} (h : 10 ^ m ≤ |x|) :
    formatResult (parseNumber (formatResult (.fin x) m)) m = formatResult (.fin x) m := by
  have h10m : (1 : ℚ) ≤ 10 ^ m := one_le_pow₀ (by norm_num)
  have hx1 : 1 ≤ |x| := le_trans h10m h
  have hfmt : formatResult (.fin x) m = String.mk (toExponential6 x) := by
    show (if 10 ^ m ≤ |x| then String.mk (toExponential6 x)
      else if m < (formattedStr (roundedNum x)).length then
        String.mk (fixedFallback (roundedNum x) m)
      else String.mk (formattedStr (roundedNum x))) = String.mk (toExponential6 x)
    rw [if_pos h]
  rw [hfmt, parse_toExponential6 hx1]
  obtain ⟨hm6, hm7, hvlo, hvhi, hEdec⟩ := expRound_spec hx1
  set M := (expRound |x|).1 with hM
  set E := (expRound |x|).2 with hE
  set v : ℚ := (M : ℚ) / 10 ^ 6 * 10 ^ E with hv
  set w : ℚ := (if x < 0 then (-1 : ℚ) else 1) * v with hw
  have hvpos : 0 < v := lt_of_lt_of_le (by positivity) hvlo
  have habsw : |w| = v := by
    rw [hw]
    by_cases hneg : x < 0
    · rw [if_pos hneg]
      rw [show ((-1 : ℚ) * v) = -v from by ring, abs_neg]
      exact abs_of_pos hvpos
    · rw [if_neg hneg, one_mul]
      exact abs_of_pos hvpos
  have hEm : m ≤ E := by
    obtain ⟨hdlo, hdhi⟩ := decExpNat_bounds hx1
    have h1 : (10 : ℚ) ^ m < 10 ^ (decExpNat |x| + 1) := lt_of_le_of_lt h hdhi
    have h2 : m < decExpNat |x| + 1 := by
      by_contra hcon
      push_neg at hcon
      have := pow_le_pow_right (by norm_num : (1 : ℚ) ≤ 10) hcon
      linarith
    omega
  have hthr2 : 10 ^ m ≤ |w| := by
    rw [habsw]
    calc (10 : ℚ) ^ m ≤ 10 ^ E := pow_le_pow_right (by norm_num) hEm
    _ ≤ v := hvlo
  have hexp_eq : toExponential6 w = toExponential6 x := by
    have h1 : expRound |w| = expRound |x| := by
      rw [habsw, hv, hM, hE]
      exact expRound_stable hx1
    have h2 : (if w < 0 then ['-'] else ([] : List Char)) =
        (if x < 0 then ['-'] else []) := by
      by_cases hneg : x < 0
      · have hwneg : w < 0 := by
          rw [hw, if_pos hneg]
          nlinarith
        rw [if_pos hneg, if_pos hwneg]
      · have hwpos : ¬ w < 0 := by
          rw [hw, if_neg hneg, one_mul]
          exact not_lt.mpr (le_of_lt hvpos)
        rw [if_neg hneg, if_neg hwpos]
    unfold toExponential6
    rw [h1]
    simp only [h2]
  show (if 10 ^ m ≤ |w| then String.mk (toExponential6 w)
    else if m < (formattedStr (roundedNum w)).length then
      String.mk (fixedFallback (roundedNum w) m)
    else String.mk (formattedStr (roundedNum w))) = String.mk (toExponential6 x)
  rw [if_pos hthr2, hexp_eq]

/-! ### Character inventory of the rendered strings -/

/-- Characters that can appear in a numeric display string: digits, the
decimal point, sign characters and the exponent marker. -/
def numericChar (c : Char) : Bool :=
  c.isDigit || c = '.' || c = '-' || c = '+' || c = 'e'

theorem numeric_of_digit {c : Char} (h : c.isDigit = true) : numericChar c = true := by
  simp [numericChar, h]

theorem renderPos_chars (k s : ℕ) : ∀ c ∈ renderPos k s, numericChar c = true := by
  intro c hc
  have hds := natToChars_all_digits k
  unfold renderPos at hc
  by_cases h0 : s = 0
  · rw [if_pos h0] at hc
    exact numeric_of_digit (hds c hc)
  · rw [if_neg h0] at hc
    by_cases h1 : s < (natToChars k).length
    · rw [if_pos h1] at hc
      rcases List.mem_append.mp hc with hc | hc
      · exact numeric_of_digit (hds c (List.take_subset _ _ hc))
      · rcases hc with _ | ⟨_, hc⟩
        · decide
        · exact numeric_of_digit (hds c (List.drop_subset _ _ hc))
    · rw [if_neg h1] at hc
      by_cases h2 : s - (natToChars k).length < 6
      · rw [if_pos h2] at hc
        rcases hc with _ | ⟨_, hc⟩
        · decide
        rcases hc with _ | ⟨_, hc⟩
        · decide
        rcases List.mem_append.mp hc with hc | hc
        · rw [List.eq_of_mem_replicate hc]; decide
        · exact numeric_of_digit (hds c hc)
      · rw [if_neg h2] at hc
        rcases List.mem_append.mp hc with hc | hc
        · rcases hds2 : natToChars k with _ | ⟨d, rest⟩
          · rw [hds2] at hc
            cases hc
          · rw [hds2] at hc
            rw [show (match d :: rest with
                | [] => ([] : List Char)
                | d :: rest => if rest = [] then [d] else d :: '.' :: rest)
              = (if rest = [] then [d] else d :: '.' :: rest) from rfl] at hc
            by_cases h3 : rest = []
            · rw [if_pos h3] at hc
              have hcd : c = d := by simpa using hc
              rw [hcd]
              exact numeric_of_digit (hds d (by rw [hds2]; exact List.mem_cons_self d rest))
            · rw [if_neg h3] at hc
              rcases List.mem_cons.mp hc with heq | hc
              · rw [heq]
                exact numeric_of_digit (hds d (by rw [hds2]; exact List.mem_cons_self d rest))
              rcases List.mem_cons.mp hc with heq | hc
              · rw [heq]; decide
              · exact numeric_of_digit
                  (hds c (by rw [hds2]; exact List.mem_cons_of_mem d hc))
        · rcases hc with _ | ⟨_, hc⟩
          · decide
          rcases hc with _ | ⟨_, hc⟩
          · decide
          · exact numeric_of_digit (natToChars_all_digits _ c hc)

theorem jsToStringScaled_chars (k : ℤ) (s : ℕ) :
    ∀ c ∈ jsToStringScaled k s, numericChar c = true := by
  intro c hc
  unfold jsToStringScaled at hc
  by_cases hk : k = 0
  · rw [if_pos hk] at hc
    simp only [List.mem_singleton] at hc
    subst hc
    decide
  · rw [if_neg hk] at hc
    change c ∈ (if k < 0 then ['-'] else []) ++
      renderPos (reduceScaled k.natAbs s).1 (reduceScaled k.natAbs s).2 at hc
    rcases List.mem_append.mp hc with hc | hc
    · by_cases hneg : k < 0
      · rw [if_pos hneg] at hc
        simp only [List.mem_singleton] at hc
        subst hc
        decide
      · rw [if_neg hneg] at hc
        cases hc
    · exact renderPos_chars _ _ c hc

theorem toExponential6_chars (x : ℚ) : ∀ c ∈ toExponential6 x, numericChar c = true := by
  intro c hc
  unfold toExponential6 at hc
  rcases hds : natToChars (expRound |x|).1 with _ | ⟨d, rest⟩
  · rw [hds] at hc
    cases hc
  · rw [hds] at hc
    rw [show (match d :: rest with
        | [] => ([] : List Char)
        | d :: rest => (if x < 0 then ['-'] else []) ++
          d :: '.' :: rest ++ 'e' :: '+' :: natToChars (expRound |x|).2)
      = ((if x < 0 then ['-'] else []) ++
          d :: '.' :: rest ++ 'e' :: '+' :: natToChars (expRound |x|).2) from rfl] at hc
    rw [List.append_assoc] at hc
    have hdig := natToChars_all_digits (expRound |x|).1
    rcases List.mem_append.mp hc with hc | hc
    · by_cases hneg : x < 0
      · rw [if_pos hneg] at hc
        simp only [List.mem_singleton] at hc
        subst hc
        decide
      · rw [if_neg hneg] at hc
        cases hc
    · rcases List.mem_cons.mp hc with heq | hc
      · rw [heq]
        exact numeric_of_digit (hdig d (by rw [hds]; exact List.mem_cons_self d rest))
      rcases List.mem_cons.mp hc with heq | hc
      · rw [heq]; decide
      rcases List.mem_append.mp hc with hc | hc
      · exact numeric_of_digit (hdig c (by rw [hds]; exact List.mem_cons_of_mem d hc))
      rcases List.mem_cons.mp hc with heq | hc
      · rw [heq]; decide
      rcases List.mem_cons.mp hc with heq | hc
      · rw [heq]; decide
      · exact numeric_of_digit (natToChars_all_digits _ c hc)

theorem jsToFixedScaled_chars (k : ℤ) (s a : ℕ) :
    ∀ c ∈ jsToFixedScaled k s a, numericChar c = true := by
  intro c hc
  unfold jsToFixedScaled at hc
  rcases List.mem_append.mp hc with hc | hc
  · by_cases hneg : k < 0
    · rw [if_pos hneg] at hc
      simp only [List.mem_singleton] at hc
      subst hc
      decide
    · rw [if_neg hneg] at hc
      cases hc
  · by_cases ha : a = 0
    · rw [if_pos ha] at hc
      exact numeric_of_digit (natToChars_all_digits _ c hc)
    · rw [if_neg ha] at hc
      rcases List.mem_append.mp hc with hc | hc
      · exact numeric_of_digit (natToChars_all_digits _ c hc)
      rcases hc with _ | ⟨_, hc⟩
      · decide
      rcases List.mem_append.mp hc with hc | hc
      · rw [List.eq_of_mem_replicate hc]; decide
      · exact numeric_of_digit (natToChars_all_digits _ c hc)

theorem intToChars_chars (k : ℤ) : ∀ c ∈ intToChars k, numericChar c = true := by
  intro c hc
  unfold intToChars at hc
  rcases List.mem_append.mp hc with hc | hc
  · by_cases hneg : k < 0
    · rw [if_pos hneg] at hc
      simp only [List.mem_singleton] at hc
      subst hc
      decide
    · rw [if_neg hneg] at hc
      cases hc
  · exact numeric_of_digit (natToChars_all_digits _ c hc)

theorem stripTailZeros_subset : ∀ {cs : List Char} {c : Char},
    c ∈ stripTailZeros cs → c ∈ cs := by
  intro cs c hc
  unfold stripTailZeros at hc
  by_cases hh : cs.reverse.head? = some '0'
  · rw [if_pos (by rw [List.head?_reverse] at hh ⊢; exact hh)] at hc
    have hsub : ∀ x ∈ cs.reverse.dropWhile (fun x => x = '0'), x ∈ cs := by
      intro x hx
      have := (List.dropWhile_sublist (fun x : Char => decide (x = '0'))).subset hx
      exact List.mem_reverse.mp this
    rcases hd : cs.reverse.dropWhile (fun x => x = '0') with _ | ⟨c1, r2⟩
    · rw [hd] at hc
      cases hc
    · rw [hd] at hc
      change c ∈ (if c1 = '.' then r2.reverse else (c1 :: r2).reverse) at hc
      by_cases hdot : c1 = '.'
      · rw [if_pos hdot] at hc
        apply hsub
        rw [hd]
        exact List.mem_cons_of_mem c1 (List.mem_reverse.mp hc)
      · rw [if_neg hdot] at hc
        apply hsub
        rw [hd]
        exact List.mem_reverse.mp hc
  · rw [if_neg (by rw [List.head?_reverse] at hh ⊢; exact hh)] at hc
    exact hc

/-- Number of decimal points in a character list. -/
def dotCount (cs : List Char) : ℕ := cs.countP (fun c => c = '.')

theorem dotCount_digits {cs : List Char} (h : ∀ c ∈ cs, c.isDigit = true) :
    dotCount cs = 0 := by
  unfold dotCount
  rw [List.countP_eq_zero]
  intro c hc
  have := h c hc
  simp only [decide_eq_true_eq]
  intro hdot
  subst hdot
  simp [Char.isDigit] at this

theorem dotCount_numeric_ne {cs : List Char}
    (h : ∀ c ∈ cs, c.isDigit = true ∨ c ≠ '.') : dotCount cs = 0 := by
  unfold dotCount
  rw [List.countP_eq_zero]
  intro c hc
  simp only [decide_eq_true_eq]
  intro hdot
  subst hdot
  rcases h '.' hc with h1 | h1
  · simp [Char.isDigit] at h1
  · exact h1 rfl

theorem dotCount_append (xs ys : List Char) :
    dotCount (xs ++ ys) = dotCount xs + dotCount ys := List.countP_append _ _ _

theorem dotCount_cons (c : Char) (cs : List Char) :
    dotCount (c :: cs) = dotCount cs + (if c = '.' then 1 else 0) := by
  unfold dotCount
  rw [List.countP_cons]
  simp

theorem renderPos_dots (k s : ℕ) : dotCount (renderPos k s) ≤ 1 := by
  have hd0 : dotCount (natToChars k) = 0 := dotCount_digits (natToChars_all_digits k)
  unfold renderPos
  by_cases h0 : s = 0
  · rw [if_pos h0, hd0]
    norm_num
  · rw [if_neg h0]
    by_cases h1 : s < (natToChars k).length
    · rw [if_pos h1]
      rw [dotCount_append, dotCount_cons]
      have ht : dotCount ((natToChars k).take ((natToChars k).length - s)) = 0 :=
        dotCount_digits (fun c hc => natToChars_all_digits k c (List.take_subset _ _ hc))
      have hdr : dotCount ((natToChars k).drop ((natToChars k).length - s)) = 0 :=
        dotCount_digits (fun c hc => natToChars_all_digits k c (List.drop_subset _ _ hc))
      rw [ht, hdr]
      norm_num
    · rw [if_neg h1]
      by_cases h2 : s - (natToChars k).length < 6
      · rw [if_pos h2]
        rw [dotCount_cons, dotCount_cons, dotCount_append, hd0]
        have hr : dotCount (List.replicate (s - (natToChars k).length) '0') = 0 :=
          dotCount_digits (fun c hc => by rw [List.eq_of_mem_replicate hc]; decide)
        rw [hr]
        norm_num
        decide
      · rw [if_neg h2]
        rw [dotCount_append, dotCount_cons, dotCount_cons]
        have hE : dotCount (natToChars (s - (natToChars k).length + 1)) = 0 :=
          dotCount_digits (natToChars_all_digits _)
        rw [hE]
        rw [if_neg (by decide : ¬ ('e' : Char) = '.'),
          if_neg (by decide : ¬ ('-' : Char) = '.')]
        have hm : dotCount (match natToChars k with
            | [] => ([] : List Char)
            | d :: rest => if rest = [] then [d] else d :: '.' :: rest) ≤ 1 := by
          rcases hds : natToChars k with _ | ⟨d, rest⟩
          · simp [dotCount]
          · rw [show (match d :: rest with
                | [] => ([] : List Char)
                | d :: rest => if rest = [] then [d] else d :: '.' :: rest)
              = (if rest = [] then [d] else d :: '.' :: rest) from rfl]
            have hdd : d.isDigit = true :=
              natToChars_all_digits k d (by rw [hds]; exact List.mem_cons_self d rest)
            have hdnd : ¬ (d = '.') := by
              intro hcc; subst hcc; simp [Char.isDigit] at hdd
            by_cases h3 : rest = []
            · rw [if_pos h3, dotCount_cons]
              simp [dotCount, hdnd]
            · rw [if_neg h3, dotCount_cons, dotCount_cons]
              have : dotCount rest = 0 := dotCount_digits (fun c hc =>
                natToChars_all_digits k c (by rw [hds]; exact List.mem_cons_of_mem d hc))
              rw [this]
              simp [hdnd]
        omega

theorem jsToStringScaled_dots (k : ℤ) (s : ℕ) : dotCount (jsToStringScaled k s) ≤ 1 := by
  unfold jsToStringScaled
  by_cases hk : k = 0
  · rw [if_pos hk]
    decide
  · rw [if_neg hk]
    show dotCount ((if k < 0 then ['-'] else []) ++
      renderPos (reduceScaled k.natAbs s).1 (reduceScaled k.natAbs s).2) ≤ 1
    rw [dotCount_append]
    have h1 : dotCount (if k < 0 then ['-'] else []) = 0 := by
      by_cases hneg : k < 0
      · rw [if_pos hneg]; decide
      · rw [if_neg hneg]; decide
    rw [h1]
    have := renderPos_dots (reduceScaled k.natAbs s).1 (reduceScaled k.natAbs s).2
    omega

theorem toExponential6_dots (x : ℚ) : dotCount (toExponential6 x) ≤ 1 := by
  unfold toExponential6
  rcases hds : natToChars (expRound |x|).1 with _ | ⟨d, rest⟩
  · simp [dotCount]
  · rw [show (match d :: rest with
        | [] => ([] : List Char)
        | d :: rest => (if x < 0 then ['-'] else []) ++
          d :: '.' :: rest ++ 'e' :: '+' :: natToChars (expRound |x|).2)
      = ((if x < 0 then ['-'] else []) ++
          d :: '.' :: rest ++ 'e' :: '+' :: natToChars (expRound |x|).2) from rfl]
    rw [List.append_assoc, dotCount_append, dotCount_append,
      dotCount_cons, dotCount_cons, dotCount_cons, dotCount_cons]
    have h1 : dotCount (if x < 0 then ['-'] else []) = 0 := by
      by_cases hneg : x < 0
      · rw [if_pos hneg]; decide
      · rw [if_neg hneg]; decide
    have h2 : dotCount rest = 0 := dotCount_digits (fun c hc =>
      natToChars_all_digits _ c (by rw [hds]; exact List.mem_cons_of_mem d hc))
    have h3 : dotCount (natToChars (expRound |x|).2) = 0 :=
      dotCount_digits (natToChars_all_digits _)
    have hdd : d.isDigit = true :=
      natToChars_all_digits _ d (by rw [hds]; exact List.mem_cons_self d rest)
    have hdnd : ¬ (d = '.') := by
      intro hcc; subst hcc; simp [Char.isDigit] at hdd
    rw [h1, h2, h3]
    simp [hdnd]

theorem jsToFixedScaled_dots (k : ℤ) (s a : ℕ) : dotCount (jsToFixedScaled k s a) ≤ 1 := by
  unfold jsToFixedScaled
  rw [dotCount_append]
  have h1 : dotCount (if k < 0 then ['-'] else []) = 0 := by
    by_cases hneg : k < 0
    · rw [if_pos hneg]; decide
    · rw [if_neg hneg]; decide
  rw [h1]
  by_cases ha : a = 0
  · rw [if_pos ha, dotCount_digits (natToChars_all_digits _)]
    norm_num
  · rw [if_neg ha]
    rw [dotCount_append, dotCount_cons, dotCount_append]
    rw [dotCount_digits (natToChars_all_digits _),
      dotCount_digits (natToChars_all_digits _),
      dotCount_digits (fun c hc => by
        rw [List.eq_of_mem_replicate hc]
        decide)]
    simp

theorem intToChars_dots (k : ℤ) : dotCount (intToChars k) = 0 := by
  unfold intToChars
  rw [dotCount_append, dotCount_digits (natToChars_all_digits _)]
  by_cases hneg : k < 0
  · rw [if_pos hneg]; decide
  · rw [if_neg hneg]; decide

theorem stripTailZeros_dots_le (cs : List Char) :
    dotCount (stripTailZeros cs) ≤ dotCount cs := by
  unfold stripTailZeros
  by_cases hh : cs.reverse.head? = some '0'
  · rw [if_pos (by rw [List.head?_reverse] at hh ⊢; exact hh)]
    have hrev : dotCount cs.reverse = dotCount cs := by
      unfold dotCount
      exact cs.countP_reverse _
    have hdw : dotCount (cs.reverse.dropWhile (fun x => x = '0')) ≤ dotCount cs := by
      rw [← hrev]
      exact (List.dropWhile_sublist _).countP_le _
    rcases hd : cs.reverse.dropWhile (fun x => x = '0') with _ | ⟨c1, r2⟩
    · simp [dotCount]
    · rw [hd] at hdw
      change dotCount (if c1 = '.' then r2.reverse else (c1 :: r2).reverse) ≤ dotCount cs
      have hr2 : dotCount r2.reverse = dotCount r2 := by
        unfold dotCount
        exact r2.countP_reverse _
      rw [dotCount_cons] at hdw
      by_cases hdot : c1 = '.'
      · rw [if_pos hdot, hr2]
        omega
      · rw [if_neg hdot]
        have : dotCount (c1 :: r2).reverse = dotCount (c1 :: r2) := by
          unfold dotCount
          exact (c1 :: r2).countP_reverse _
        rw [this, dotCount_cons]
        omega
  · rw [if_neg (by rw [List.head?_reverse] at hh ⊢; exact hh)]

theorem formatResult_dots (x : JNum) (m : ℕ) :
    dotCount (formatResult x m).data ≤ 1 := by
  cases x with
  | nan =>
    show dotCount ("Error" : String).data ≤ 1
    decide
  | inf b =>
    show dotCount ("Error" : String).data ≤ 1
    decide
  | fin q =>
    show dotCount (if 10 ^ m ≤ |q| then String.mk (toExponential6 q)
      else if m < (formattedStr (roundedNum q)).length then
        String.mk (fixedFallback (roundedNum q) m)
      else String.mk (formattedStr (roundedNum q))).data ≤ 1
    by_cases h1 : 10 ^ m ≤ |q|
    · rw [if_pos h1]
      exact toExponential6_dots q
    · rw [if_neg h1]
      have hfs : dotCount (formattedStr (roundedNum q)) ≤ 1 := by
        rw [formattedStr_eq]
        exact jsToStringScaled_dots _ _
      by_cases h2 : m < (formattedStr (roundedNum q)).length
      · rw [if_pos h2]
        show dotCount (fixedFallback (roundedNum q) m) ≤ 1
        unfold fixedFallback
        by_cases h3 : (natToChars ((roundedNum q).natAbs / 10 ^ 10)).length < m
        · rw [if_pos h3]
          exact le_trans (stripTailZeros_dots_le _) (jsToFixedScaled_dots _ _ _)
        · rw [if_neg h3]
          rw [intToChars_dots]
          norm_num
      · rw [if_neg h2]
        exact hfs

theorem formatResult_chars (x : JNum) (m : ℕ) :
    (∀ c ∈ (formatResult x m).data, numericChar c = true) ∨ formatResult x m = "Error" := by
  cases x with
  | nan => exact Or.inr rfl
  | inf b => exact Or.inr rfl
  | fin q =>
    left
    show ∀ c ∈ (if 10 ^ m ≤ |q| then String.mk (toExponential6 q)
      else if m < (formattedStr (roundedNum q)).length then
        String.mk (fixedFallback (roundedNum q) m)
      else String.mk (formattedStr (roundedNum q))).data, numericChar c = true
    by_cases h1 : 10 ^ m ≤ |q|
    · rw [if_pos h1]
      exact toExponential6_chars q
    · rw [if_neg h1]
      by_cases h2 : m < (formattedStr (roundedNum q)).length
      · rw [if_pos h2]
        intro c hc
        show numericChar c = true
        unfold fixedFallback at hc
        by_cases h3 : (natToChars ((roundedNum q).natAbs / 10 ^ 10)).length < m
        · rw [if_pos h3] at hc
          exact jsToFixedScaled_chars _ _ _ c (stripTailZeros_subset hc)
        · rw [if_neg h3] at hc
          exact intToChars_chars _ c hc
      · rw [if_neg h2]
        intro c hc
        rw [formattedStr_eq] at hc
        exact jsToStringScaled_chars _ _ c hc

/-! ### JavaScript number arithmetic on `JNum` -/

/-- JavaScript addition. -/
def jadd : JNum → JNum → JNum
  | .nan, _ => .nan
  | _, .nan => .nan
  | .inf s, .inf t => if s = t then .inf s else .nan
  | .inf s, .fin _ => .inf s
  | .fin _, .inf t => .inf t
  | .fin a, .fin b => .fin (a + b)

/-- JavaScript subtraction. -/
def jsub : JNum → JNum → JNum
  | .nan, _ => .nan
  | _, .nan => .nan
  | .inf s, .inf t => if s = t then .nan else .inf s
  | .inf s, .fin _ => .inf s
  | .fin _, .inf t => .inf (!t)
  | .fin a, .fin b => .fin (a - b)

/-- JavaScript multiplication. -/
def jmul : JNum → JNum → JNum
  | .nan, _ => .nan
  | _, .nan => .nan
  | .inf s, .inf t => .inf (xor s t)
  | .inf s, .fin b => if b = 0 then .nan else .inf (xor s (decide (b < 0)))
  | .fin a, .inf t => if a = 0 then .nan else .inf (xor (decide (a < 0)) t)
  | .fin a, .fin b => .fin (a * b)

/-- JavaScript division (the calculator guards the zero divisor before use). -/
def jdiv : JNum → JNum → JNum
  | .nan, _ => .nan
  | _, .nan => .nan
  | .inf s, .inf _ => if s then .nan else .nan
  | .inf s, .fin b => .inf (xor s (decide (b < 0)))
  | .fin _, .inf _ => .fin 0
  | .fin a, .fin b =>
    if b = 0 then (if a = 0 then .nan else .inf (decide (a < 0)))
    else .fin (a / b)

/-- The comparison `value >= 0` on a JavaScript number (false for NaN). -/
def jge0 : JNum → Bool
  | .nan => false
  | .inf s => !s
  | .fin q => decide (0 ≤ q)

/-- The comparison `value < 0` on a JavaScript number (false for NaN). -/
def jlt0 : JNum → Bool
  | .nan => false
  | .inf s => s
  | .fin q => decide (q < 0)

/-- The strict comparison `value === 0` (false for NaN and infinities). -/
def jeq0 : JNum → Bool
  | .fin q => decide (q = 0)
  | _ => false

/-- Linear-search integer square root (exact on perfect squares). -/
def natSqrtAux : ℕ → ℕ → ℕ
  | 0, _ => 0
  | f + 1, n => if (f + 1) * (f + 1) ≤ n then f + 1 else natSqrtAux f n

def natSqrtLin (n : ℕ) : ℕ := natSqrtAux n n

/-- `Math.sqrt`, modelled exactly on perfect-square rationals (the only
square-root values whose exact result the program's behaviour depends on);
other inputs receive the same componentwise integer-square-root
approximation. -/
def jsqrt : JNum → JNum
  | .nan => .nan
  | .inf s => if s then .nan else .inf false
  | .fin q =>
    if 0 ≤ q then .fin ((natSqrtLin q.num.toNat : ℚ) / (natSqrtLin q.den : ℚ))
    else .nan

/-! ### CalculatorUtils (utils.js) -/

/-- `CalculatorUtils.sanitizeOutput`: strip angle brackets, quotes, control
characters other than tab, newline and carriage return, and ampersands. -/
def sanitizeOutput (value : String) : String :=
  -- value.replace(/[<>]/g, '')
  let s1 := String.mk (value.data.filter (fun c => ! (c = '<' || c = '>')))
  -- .replace(/["']/g, '')
  let s2 := String.mk (s1.data.filter (fun c => ! (c = '"' || c = '\'')))
  -- .replace(/[\x00-\x08\x0B\x0C\x0E-\x1F]/g, '')
  let s3 := String.mk (s2.data.filter (fun c =>
    ! (c.toNat ≤ 0x08 || c.toNat = 0x0B || c.toNat = 0x0C ||
       (0x0E ≤ c.toNat && c.toNat ≤ 0x1F))))
  -- .replace(/&/g, '')
  String.mk (s3.data.filter (fun c => ! (c = '&')))

/-- `CalculatorUtils.isValidNumber`: the regular expression `^[0-9]$`. -/
def isValidNumber (number : String) : Bool :=
  match number.data with
  | [c] => c.isDigit
  | _ => false

/-- `CalculatorUtils.isValidOperator`: whitelist of the four operator
symbols (each operator token is a one-character string). -/
def isValidOperator (operator : Char) : Bool :=
  operator = '+' || operator = '−' || operator = '×' || operator = '÷'

/-- `CalculatorUtils.validateInputLength`: length at most `maxDigits*2+10`. -/
def validateInputLength (input : String) (maxDigits : ℕ) : Bool :=
  input.length ≤ maxDigits * 2 + 10

/-! ### The Calculator state machine (script.js)

Every state-changing method of the `Calculator` class becomes a function on
`CalcState`.  DOM lookups, display updates, screen-reader announcements,
storage persistence and the error auto-clear timer do not touch the modelled
state and are omitted.  `previousInput` stores `null` as `none`; the
`undefined` that `inputOperator` can assign after a failed `calculate()` is
modelled as `some JNum.nan`, which is observationally equal (it differs from
`null`, `isNaN` holds of it, and `formatResult` maps it to `"Error"`). -/

structure CalcState where
  currentInput : String
  previousInput : Option JNum
  operator : Option Char
  waitingForOperand : Bool
  maxDigits : ℕ
  decimalPlaces : ℕ
  hasDecimal : Bool
  isError : Bool
  isOverflow : Bool
  memory : JNum
  memoryActive : Bool
  history : List (String × JNum)
  historyLimit : ℕ
deriving DecidableEq

/-- Constructor state (with the configured precision and history limit). -/
def initState (precision histLimit : ℕ) : CalcState :=
  { currentInput := "0", previousInput := none, operator := none,
    waitingForOperand := false, maxDigits := precision, decimalPlaces := 0,
    hasDecimal := false, isError := false, isOverflow := false,
    memory := .fin 0, memoryActive := false, history := [],
    historyLimit := histLimit }

/-- `showError(message)`: enter the error state with the message displayed
(the two-second auto-clear runs on the wall clock, outside this model). -/
def showError (s : CalcState) (message : String) : CalcState :=
  { s with isError := true, currentInput := message }

/-- `clear()`. -/
def clear (s : CalcState) : CalcState :=
  { s with
    currentInput := "0", previousInput := none, operator := none,
    waitingForOperand := false, isError := false, isOverflow := false,
    hasDecimal := false, decimalPlaces := 0 }

/-- `clearEntry()`. -/
def clearEntry (s : CalcState) : CalcState :=
  { s with currentInput := "0", hasDecimal := false, decimalPlaces := 0 }

/-- `getDisplayLength()`: `currentInput.replace(/\./g, '').length`. -/
def getDisplayLength (s : CalcState) : ℕ :=
  (s.currentInput.data.filter (fun c => ! (c = '.'))).length

/-- `inputNumber(number)`. -/
def inputNumber (s : CalcState) (number : String) : CalcState :=
  if ! isValidNumber number then s
  else
    let futureInput := if s.waitingForOperand then number else s.currentInput ++ number
    if ! validateInputLength futureInput s.maxDigits then
      showError s "Input too long. Maximum length exceeded."
    else
      let s := if s.isError then clear s else s
      if s.waitingForOperand then
        { s with
          currentInput := number, waitingForOperand := false,
          hasDecimal := false, decimalPlaces := 0 }
      else if s.currentInput = "0" then { s with currentInput := number }
      else if getDisplayLength s < s.maxDigits then
        { s with currentInput := s.currentInput ++ number }
      else s

/-- `inputDecimal()`. -/
def inputDecimal (s : CalcState) : CalcState :=
  let futureInput := if s.waitingForOperand then "0." else s.currentInput ++ "."
  if ! validateInputLength futureInput s.maxDigits then
    showError s "Input too long. Maximum length exceeded."
  else
    let s := if s.isError then clear s else s
    if s.waitingForOperand then
      { s with
        currentInput := "0.", waitingForOperand := false,
        hasDecimal := true, decimalPlaces := 0 }
    else if (! s.hasDecimal) && getDisplayLength s < s.maxDigits then
      { s with currentInput := s.currentInput ++ ".", hasDecimal := true }
    else s

/-- `backspace()`. -/
def backspace (s : CalcState) : CalcState :=
  if s.isError then clear s
  else if 1 < s.currentInput.length then
    let lastChar := s.currentInput.data.getLast?
    let s' := { s with currentInput := String.mk s.currentInput.data.dropLast }
    if lastChar = some '.' then
      { s' with hasDecimal := false, decimalPlaces := 0 }
    else if s.hasDecimal then { s' with decimalPlaces := s.decimalPlaces - 1 }
    else s'
  else { s with currentInput := "0", hasDecimal := false, decimalPlaces := 0 }

/-- Characters after the first decimal point (`split('.')[1].length`). -/
def fracLen (cs : List Char) : ℕ :=
  ((cs.dropWhile (fun c => ! (c = '.'))).drop 1).length

/-- `${prev} ${operator} ${current}` of `buildExpression`; finite values with
ten-decimal expansions (all values the formatter produced) are printed
exactly, any other rational is abbreviated since the history text is never
read back by the engine. -/
def jnumToString : JNum → String
  | .nan => "NaN"
  | .inf b => if b then "-Infinity" else "Infinity"
  | .fin q =>
    if (q * 10 ^ 10).den = 1 then String.mk (jsToStringScaled (q * 10 ^ 10).num 10)
    else "?"

def buildExpression (prev : JNum) (op : Char) (current : JNum) : String :=
  jnumToString prev ++ " " ++ String.singleton op ++ " " ++ jnumToString current

/-- `addToHistory(expression, result)`: unshift, truncating past the limit;
ids, timestamps and storage persistence are outside the model. -/
def addToHistory (s : CalcState) (expression : String) (result : JNum) : CalcState :=
  let h := (expression, result) :: s.history
  { s with history := if s.historyLimit < h.length then h.take s.historyLimit else h }

/-- `calculate()`: returns the new state together with the returned value
(`none` models the `undefined` returns). -/
def calculate (s : CalcState) : CalcState × Option JNum :=
  if s.isError then (s, none)
  else
    match s.operator, s.previousInput with
    | some op, some prev =>
      let current := parseNumber s.currentInput
      if prev.isNaNJ || current.isNaNJ then (showError s "Invalid input", none)
      else if op = '÷' && jeq0 current then (showError s "Cannot divide by zero", none)
      else
        match (if op = '+' then some (jadd prev current)
               else if op = '−' then some (jsub prev current)
               else if op = '×' then some (jmul prev current)
               else if op = '÷' then some (jdiv prev current)
               else none) with
        | none => (s, none)
        | some result =>
          if result.isNaNJ then (showError s "Invalid result", none)
          else if ! result.isFiniteJ then (showError s "Overflow", none)
          else
            let str := formatResult result s.maxDigits
            (addToHistory
              { s with
                currentInput := str, previousInput := none,
                operator := none, waitingForOperand := true,
                hasDecimal := str.contains '.',
                decimalPlaces := fracLen str.data }
              (buildExpression prev op current) result,
             some result)
    | _, _ => (s, none)

/-- `inputOperator(operator)`. -/
def inputOperator (s : CalcState) (op : Char) : CalcState :=
  if s.isError then s
  else
    let inputValue := parseNumber s.currentInput
    let s1 :=
      if s.previousInput = none then { s with previousInput := some inputValue }
      else if s.operator ≠ none then
        let c := calculate s
        let result : JNum := match c.2 with
          | some r => r
          | none => .nan
        { c.1 with
          currentInput := formatResult result c.1.maxDigits,
          previousInput := some result }
      else { s with previousInput := some inputValue }
    { s1 with waitingForOperand := true, operator := some op }

/-- `memoryStore()`. -/
def memoryStore (s : CalcState) : CalcState :=
  let value := parseNumber s.currentInput
  if ! value.isNaNJ then { s with memory := value, memoryActive := true } else s

/-- `memoryRecall()`. -/
def memoryRecall (s : CalcState) : CalcState :=
  if s.memoryActive then
    { s with
      currentInput := formatResult s.memory s.maxDigits,
      waitingForOperand := false, isError := false }
  else s

/-- `memoryAdd()`. -/
def memoryAdd (s : CalcState) : CalcState :=
  let value := parseNumber s.currentInput
  if ! value.isNaNJ then
    { s with memory := jadd s.memory value, memoryActive := true }
  else s

/-- `memorySubtract()`. -/
def memorySubtract (s : CalcState) : CalcState :=
  let value := parseNumber s.currentInput
  if ! value.isNaNJ then
    { s with memory := jsub s.memory value, memoryActive := true }
  else s

/-- `memoryClear()`. -/
def memoryClear (s : CalcState) : CalcState :=
  { s with memory := .fin 0, memoryActive := false }

/-- `calculatePercentage()`. -/
def calculatePercentage (s : CalcState) : CalcState :=
  let value := parseNumber s.currentInput
  if ! value.isNaNJ then
    { s with
      currentInput := formatResult (jdiv value (.fin 100)) s.maxDigits,
      waitingForOperand := true }
  else s

/-- `calculateSquareRoot()`. -/
def calculateSquareRoot (s : CalcState) : CalcState :=
  let value := parseNumber s.currentInput
  if (! value.isNaNJ) && jge0 value then
    { s with
      currentInput := formatResult (jsqrt value) s.maxDigits,
      waitingForOperand := true }
  else if jlt0 value then showError s "Invalid input"
  else s

/-- `calculateSquare()`. -/
def calculateSquare (s : CalcState) : CalcState :=
  let value := parseNumber s.currentInput
  if ! value.isNaNJ then
    { s with
      currentInput := formatResult (jmul value value) s.maxDigits,
      waitingForOperand := true }
  else s

/-- `calculateCube()`. -/
def calculateCube (s : CalcState) : CalcState :=
  let value := parseNumber s.currentInput
  if ! value.isNaNJ then
    { s with
      currentInput := formatResult (jmul (jmul value value) value) s.maxDigits,
      waitingForOperand := true }
  else s

/-- `calculateReciprocal()`. -/
def calculateReciprocal (s : CalcState) : CalcState :=
  let value := parseNumber s.currentInput
  if (! value.isNaNJ) && (! jeq0 value) then
    { s with
      currentInput := formatResult (jdiv (.fin 1) value) s.maxDigits,
      waitingForOperand := true }
  else if jeq0 value then showError s "Cannot divide by zero"
  else s

/-- The `performAction` action names of the calculator core (the history and
settings panel toggles touch only the UI). -/
inductive CalcAction where
  | clear | clearEntry | backspace | decimal | equals
  | memStore | memRecall | memAdd | memSubtract | memClear
  | percentage | squareRoot | square | cube | reciprocal
deriving DecidableEq

/-- One validated input token as dispatched by `handleButtonClick` or
`handleKeyboard`: a digit button, an operator button (validated against the
whitelist before dispatch), or an action. -/
inductive Token where
  | digit : Char → Token
  | op : Char → Token
  | act : CalcAction → Token
deriving DecidableEq

def applyToken (s : CalcState) : Token → CalcState
  | .digit c => inputNumber s (String.singleton c)
  | .op c => if isValidOperator c then inputOperator s c else s
  | .act .clear => clear s
  | .act .clearEntry => clearEntry s
  | .act .backspace => backspace s
  | .act .decimal => inputDecimal s
  | .act .equals => (calculate s).1
  | .act .memStore => memoryStore s
  | .act .memRecall => memoryRecall s
  | .act .memAdd => memoryAdd s
  | .act .memSubtract => memorySubtract s
  | .act .memClear => memoryClear s
  | .act .percentage => calculatePercentage s
  | .act .squareRoot => calculateSquareRoot s
  | .act .square => calculateSquare s
  | .act .cube => calculateCube s
  | .act .reciprocal => calculateReciprocal s

def applyTokens (s : CalcState) (ts : List Token) : CalcState :=
  ts.foldl applyToken s

/-! ### Claim theorems -/

theorem JNum.isNaNJ_eq_false {v : JNum} (h : v ≠ .nan) : v.isNaNJ = false := by
  cases v with
  | nan => exact absurd rfl h
  | inf b => rfl
  | fin q => rfl

/-- C1: the claim says pressing a second operator before typing a new operand
only replaces the stored operator, leaving `previousOperand` unchanged and
performing no calculation, and the changelog documents that fix; but the code
of `inputOperator` (script.js and calculator.js) runs `calculate()`
unconditionally whenever an operator is pending, so after the tokens
`2`, `+`, `−` the stored operand is `4` (2+2 was computed) and a history
entry was appended. -/
theorem C1_operator_change_runs_calculate :
    (applyTokens (initState 12 50) [.digit '2', .op '+', .op '−']).previousInput
      = some (.fin 4) ∧
    (applyTokens (initState 12 50) [.digit '2', .op '+', .op '−']).previousInput
      ≠ some (.fin 2) ∧
    (applyTokens (initState 12 50) [.digit '2', .op '+', .op '−']).history.length = 1 ∧
    (applyTokens (initState 12 50) [.digit '2', .op '+', .op '−']).operator
      = some '−' := by
  refine ⟨by decide!, by decide!, by decide!, by decide!⟩

/-- C3: when `calculate` runs with pending operator `÷`, a non-NaN left
operand and a displayed operand parsing to `0`, the engine enters the error
state with the message `Cannot divide by zero`, returns `undefined`, and
leaves `previousInput`, `operator` and the history untouched. -/
theorem C3_divide_by_zero (s : CalcState) (v : JNum)
    (h1 : s.isError = false) (h2 : s.operator = some '÷')
    (h3 : s.previousInput = some v) (h4 : v ≠ .nan)
    (h5 : parseNumber s.currentInput = .fin 0) :
    (calculate s).1.isError = true ∧
    (calculate s).1.currentInput = "Cannot divide by zero" ∧
    (calculate s).1.previousInput = s.previousInput ∧
    (calculate s).1.operator = s.operator ∧
    (calculate s).1.history = s.history ∧
    (calculate s).2 = none := by
  have hcalc : calculate s = (showError s "Cannot divide by zero", none) := by
    unfold calculate
    rw [if_neg (by rw [h1]; exact Bool.false_ne_true)]
    rw [h2, h3]
    show (let current := parseNumber s.currentInput;
      if v.isNaNJ || current.isNaNJ then (showError s "Invalid input", none)
      else if '÷' = '÷' && jeq0 current then (showError s "Cannot divide by zero", none)
      else _) = _
    rw [show parseNumber s.currentInput = JNum.fin 0 from h5]
    rw [JNum.isNaNJ_eq_false h4]
    norm_num
    rw [if_neg (by decide : ¬((JNum.fin 0).isNaNJ = true))]
    rw [if_pos (by decide : jeq0 (JNum.fin 0) = true)]
  rw [hcalc]
  refine ⟨rfl, rfl, ?_, ?_, rfl, rfl⟩
  · show s.previousInput = s.previousInput
    rfl
  · show s.operator = s.operator
    rfl

/-- C3 witness: the token sequence `5`, `÷`, `0`, `=` exercises the theorem. -/
theorem C3_divide_by_zero_witness :
    (calculate (applyTokens (initState 12 50)
      [.digit '5', .op '÷', .digit '0'])).1.currentInput = "Cannot divide by zero" ∧
    (calculate (applyTokens (initState 12 50)
      [.digit '5', .op '÷', .digit '0'])).1.previousInput = some (.fin 5) ∧
    (calculate (applyTokens (initState 12 50)
      [.digit '5', .op '÷', .digit '0'])).1.history = [] := by
  have h := C3_divide_by_zero
    (applyTokens (initState 12 50) [.digit '5', .op '÷', .digit '0'])
    (.fin 5) (by decide!) (by decide!) (by decide!) (by decide!) (by decide!)
  refine ⟨h.2.1, ?_, ?_⟩
  · rw [h.2.2.1]
    decide!
  · rw [h.2.2.2.2.1]
    decide!

/-- C6 counterexample: the claim says memory recall sets `waitingForOperand`
to `true` and that no memory operation touches `isError`; but after
`5`, `M+store`, `+`, `M-recall` the flag is `false` (the code writes
`waitingForOperand = false`), and recalling while an error is shown clears
`isError` from `true` to `false`. -/
theorem C6_counterexample :
    (applyTokens (initState 12 50)
      [.digit '5', .act .memStore, .op '+', .act .memRecall]).waitingForOperand
        = false ∧
    (applyTokens (initState 12 50)
      [.digit '5', .act .memStore, .op '÷', .digit '0', .act .equals]).isError
        = true ∧
    (applyTokens (initState 12 50)
      [.digit '5', .act .memStore, .op '÷', .digit '0', .act .equals,
       .act .memRecall]).isError = false := by
  refine ⟨by decide!, by decide!, by decide!⟩

/-- C6 (amended): no memory operation modifies `previousInput` or
`operator`; store, add, subtract and memory-clear also leave `isError`
unchanged; memory recall (when the memory is active) writes the formatted
memory value into `currentInput` but sets `waitingForOperand` to `false`
and resets `isError` to `false`. -/
theorem C6_memory_frame_amended (s : CalcState) :
    (memoryStore s).previousInput = s.previousInput ∧
    (memoryStore s).operator = s.operator ∧
    (memoryStore s).isError = s.isError ∧
    (memoryAdd s).previousInput = s.previousInput ∧
    (memoryAdd s).operator = s.operator ∧
    (memoryAdd s).isError = s.isError ∧
    (memorySubtract s).previousInput = s.previousInput ∧
    (memorySubtract s).operator = s.operator ∧
    (memorySubtract s).isError = s.isError ∧
    (memoryClear s).previousInput = s.previousInput ∧
    (memoryClear s).operator = s.operator ∧
    (memoryClear s).isError = s.isError ∧
    (memoryRecall s).previousInput = s.previousInput ∧
    (memoryRecall s).operator = s.operator ∧
    (s.memoryActive = true →
      (memoryRecall s).currentInput = formatResult s.memory s.maxDigits ∧
      (memoryRecall s).waitingForOperand = false ∧
      (memoryRecall s).isError = false) := by
  refine ⟨?_, ?_, ?_, ?_, ?_, ?_, ?_, ?_, ?_, rfl, rfl, rfl, ?_, ?_, ?_⟩
  · simp only [memoryStore]; split <;> rfl
  · simp only [memoryStore]; split <;> rfl
  · simp only [memoryStore]; split <;> rfl
  · simp only [memoryAdd]; split <;> rfl
  · simp only [memoryAdd]; split <;> rfl
  · simp only [memoryAdd]; split <;> rfl
  · simp only [memorySubtract]; split <;> rfl
  · simp only [memorySubtract]; split <;> rfl
  · simp only [memorySubtract]; split <;> rfl
  · simp only [memoryRecall]; split <;> rfl
  · simp only [memoryRecall]; split <;> rfl
  · intro h
    unfold memoryRecall
    rw [if_pos h]
    exact ⟨rfl, rfl, rfl⟩

/-- C6 witness: the amended frame facts at the state reached by
`5`, `M-store`, `+`. -/
theorem C6_memory_frame_amended_witness :
    (memoryRecall (applyTokens (initState 12 50)
      [.digit '5', .act .memStore, .op '+'])).currentInput = "5" ∧
    (memoryRecall (applyTokens (initState 12 50)
      [.digit '5', .act .memStore, .op '+'])).waitingForOperand = false ∧
    (memoryRecall (applyTokens (initState 12 50)
      [.digit '5', .act .memStore, .op '+'])).isError = false ∧
    (memoryRecall (applyTokens (initState 12 50)
      [.digit '5', .act .memStore, .op '+'])).previousInput = some (.fin 5) ∧
    (memoryRecall (applyTokens (initState 12 50)
      [.digit '5', .act .memStore, .op '+'])).operator = some '+' := by
  have h := C6_memory_frame_amended (applyTokens (initState 12 50)
    [.digit '5', .act .memStore, .op '+'])
  obtain ⟨-, -, -, -, -, -, -, -, -, -, -, -, h13, h14, h15⟩ := h
  obtain ⟨hc, hw, he⟩ := h15 (by decide!)
  refine ⟨?_, hw, he, ?_, ?_⟩
  · rw [hc]; decide!
  · rw [h13]; decide!
  · rw [h14]; decide!

/-- C5: each unary operation (percentage, square root, square, cube,
reciprocal), applied where its mathematical function is defined on the
parsed display value, replaces only `currentInput` (with the formatted
result of its function on the displayed value) and sets
`waitingForOperand`, leaving every other field - in particular
`previousInput` and `operator` - unchanged; and concretely `5`, `+`, `9`,
square-root gives display `3` with the pending `5 +` intact, after which
`=` yields `8`. -/
theorem C5_unary_frame (s : CalcState) (q : ℚ)
    (h : parseNumber s.currentInput = .fin q) :
    calculatePercentage s =
      { s with
        currentInput := formatResult (jdiv (.fin q) (.fin 100)) s.maxDigits,
        waitingForOperand := true } ∧
    (0 ≤ q → calculateSquareRoot s =
      { s with
        currentInput := formatResult (jsqrt (.fin q)) s.maxDigits,
        waitingForOperand := true }) ∧
    calculateSquare s =
      { s with
        currentInput := formatResult (jmul (.fin q) (.fin q)) s.maxDigits,
        waitingForOperand := true } ∧
    calculateCube s =
      { s with
        currentInput := formatResult (jmul (jmul (.fin q) (.fin q)) (.fin q)) s.maxDigits,
        waitingForOperand := true } ∧
    (q ≠ 0 → calculateReciprocal s =
      { s with
        currentInput := formatResult (jdiv (.fin 1) (.fin q)) s.maxDigits,
        waitingForOperand := true }) ∧
    (applyTokens (initState 12 50)
      [.digit '5', .op '+', .digit '9', .act .squareRoot]).currentInput = "3" ∧
    (applyTokens (initState 12 50)
      [.digit '5', .op '+', .digit '9', .act .squareRoot]).previousInput
        = some (.fin 5) ∧
    (applyTokens (initState 12 50)
      [.digit '5', .op '+', .digit '9', .act .squareRoot]).operator = some '+' ∧
    (applyTokens (initState 12 50)
      [.digit '5', .op '+', .digit '9', .act .squareRoot,
       .act .equals]).currentInput = "8" := by
  refine ⟨?_, ?_, ?_, ?_, ?_, by decide!, by decide!, by decide!, by decide!⟩
  · simp only [calculatePercentage]
    rw [h]
    rw [if_pos (show (! (JNum.fin q).isNaNJ) = true from rfl)]
  · intro hq
    simp only [calculateSquareRoot]
    rw [h]
    rw [if_pos (show ((! (JNum.fin q).isNaNJ) && jge0 (.fin q)) = true by
      simp [JNum.isNaNJ, jge0, hq])]
  · simp only [calculateSquare]
    rw [h]
    rw [if_pos (show (! (JNum.fin q).isNaNJ) = true from rfl)]
  · simp only [calculateCube]
    rw [h]
    rw [if_pos (show (! (JNum.fin q).isNaNJ) = true from rfl)]
  · intro hq
    simp only [calculateReciprocal]
    rw [h]
    rw [if_pos (show ((! (JNum.fin q).isNaNJ) && (! jeq0 (.fin q))) = true by
      simp [JNum.isNaNJ, jeq0, hq])]

/-- C5 witness: the frame theorem instantiated at the display value `9`. -/
theorem C5_unary_frame_witness :
    (calculatePercentage (applyTokens (initState 12 50)
      [.digit '9'])).currentInput = "0.09" ∧
    (calculateSquareRoot (applyTokens (initState 12 50)
      [.digit '9'])).currentInput = "3" ∧
    (calculateReciprocal (applyTokens (initState 12 50)
      [.digit '9'])).operator = none := by
  have h := C5_unary_frame (applyTokens (initState 12 50) [.digit '9']) 9 (by decide!)
  refine ⟨?_, ?_, ?_⟩
  · rw [h.1]; decide!
  · rw [h.2.1 (by norm_num)]; decide!
  · rw [h.2.2.2.2.1 (by norm_num)]; decide!

/-- C8 counterexample: at `x = 9999999999997/10` (that is `999999999999.7`)
and precision `12`, the value is finite and below `10^12`, yet
`format(parseNumber(format(x, 12)), 12)` differs from `format(x, 12)`: the
first format truncates via the `Math.round` fallback to the 13-character
string `1000000000000`, which reparses to `10^12` and then formats as
`1.000000e+12`. -/
theorem C8_counterexample :
    formatResult (parseNumber (formatResult (.fin (9999999999997 / 10)) 12)) 12
      ≠ formatResult (.fin (9999999999997 / 10)) 12 := by decide!

/-- C8 (amended): the format-parse-format round trip is stable for every
finite `x` that either reaches the exponential branch (`10^m <= abs x`) or
fits the precision without the truncating `Math.round` fallback (`abs x`
below `10^m` and the rounded-to-ten-decimals rendering at most `m`
characters long). -/
theorem C8_roundTrip_amended (x : ℚ) (m : ℕ)
    (h : 10 ^ m ≤ |x| ∨
      (|x| < 10 ^ m ∧ (formattedStr (roundedNum x)).length ≤ m)) :
    formatResult (parseNumber (formatResult (.fin x) m)) m
      = formatResult (.fin x) m := by
  rcases h with h | ⟨h1, h2⟩
  · exact formatResult_roundTrip_exp h
  · exact formatResult_roundTrip_noTrunc h1 h2

/-- C8 witness: the amended round trip at `x = 3/2`, precision 12. -/
theorem C8_roundTrip_amended_witness :
    ((|(3 : ℚ) / 2| < 10 ^ 12 ∧
        (formattedStr (roundedNum (3 / 2))).length ≤ 12) ∧
      formatResult (parseNumber (formatResult (.fin (3 / 2)) 12)) 12
        = formatResult (.fin (3 / 2)) 12) :=
  ⟨⟨by decide!, by decide!⟩,
   C8_roundTrip_amended (3 / 2) 12 (Or.inr ⟨by decide!, by decide!⟩)⟩

/-- A rendered string in exponential notation with exactly six fractional
digits: it has an exponent marker, and the span from the decimal point to
the marker holds the point plus six characters. -/
def expShape6 (cs : List Char) : Bool :=
  cs.contains 'e' &&
    ((cs.takeWhile (fun c => ! (c = 'e'))).dropWhile (fun c => ! (c = '.'))).length == 7

/-- A rendered string in fixed (non-exponential) notation: no marker. -/
def fixedShape (cs : List Char) : Bool := ! cs.contains 'e'

theorem takeWhile_stop {p : Char → Bool} (xs : List Char) {y : Char} (ys : List Char)
    (hxs : ∀ c ∈ xs, p c = true) (hy : p y = false) :
    (xs ++ y :: ys).takeWhile p = xs := by
  induction xs with
  | nil =>
    rw [List.nil_append]
    exact List.takeWhile_cons_of_neg (by rw [hy]; simp)
  | cons a l ih =>
    rw [List.cons_append, List.takeWhile_cons_of_pos (hxs a (List.mem_cons_self a l))]
    rw [ih (fun c hc => hxs c (List.mem_cons_of_mem a hc))]

theorem dropWhile_stop {p : Char → Bool} (xs : List Char) {y : Char} (ys : List Char)
    (hxs : ∀ c ∈ xs, p c = true) (hy : p y = false) :
    (xs ++ y :: ys).dropWhile p = y :: ys := by
  induction xs with
  | nil =>
    rw [List.nil_append]
    exact List.dropWhile_cons_of_neg (by rw [hy]; simp)
  | cons a l ih =>
    rw [List.cons_append, List.dropWhile_cons_of_pos (hxs a (List.mem_cons_self a l))]
    exact ih (fun c hc => hxs c (List.mem_cons_of_mem a hc))

theorem toExponential6_expShape {x : ℚ} (hx : (1 : ℚ) ≤ |x|) :
    expShape6 (toExponential6 x) = true ∧ fixedShape (toExponential6 x) = false := by
  obtain ⟨d, rest, hd, hlen, hdd, hrd⟩ := natToChars_expRound hx
  have hcs : toExponential6 x =
      ((if x < 0 then ['-'] else []) ++ (d :: '.' :: rest)) ++
        ('e' :: '+' :: natToChars (expRound |x|).2) := by
    unfold toExponential6
    rw [hd]
  have hsign : ∀ c ∈ (if x < 0 then ['-'] else ([] : List Char)), c = '-' := by
    intro c hc
    by_cases hneg : x < 0
    · rw [if_pos hneg] at hc
      simpa using hc
    · rw [if_neg hneg] at hc
      cases hc
  have hcont : (toExponential6 x).contains 'e' = true := by
    rw [hcs]
    exact contains_iff_mem.mpr
      (List.mem_append_right _ (List.mem_cons_self 'e' _))
  have htake : (toExponential6 x).takeWhile (fun c => ! (c = 'e'))
      = (if x < 0 then ['-'] else []) ++ (d :: '.' :: rest) := by
    rw [hcs]
    refine takeWhile_stop _ _ ?_ (by decide)
    intro c hc
    simp only [Bool.not_eq_true', decide_eq_false_iff_not]
    rcases List.mem_append.mp hc with hc | hc
    · rw [hsign c hc]
      decide
    · rcases List.mem_cons.mp hc with heq | hc
      · rw [heq]
        exact digit_ne_e hdd
      rcases List.mem_cons.mp hc with heq | hc
      · rw [heq]
        decide
      · exact digit_ne_e (hrd c hc)
  have hdrop : ((if x < 0 then ['-'] else []) ++ (d :: '.' :: rest)).dropWhile
      (fun c => ! (c = '.')) = '.' :: rest := by
    rw [List.append_cons (if x < 0 then ['-'] else []) d ('.' :: rest)]
    refine dropWhile_stop _ _ ?_ (by decide)
    intro c hc
    simp only [Bool.not_eq_true', decide_eq_false_iff_not]
    rcases List.mem_append.mp hc with hc | hc
    · rw [hsign c hc]
      decide
    · have heq : c = d := by simpa using hc
      rw [heq]
      intro hdot
      subst hdot
      simp [Char.isDigit] at hdd
  constructor
  · unfold expShape6
    rw [hcont, htake, hdrop]
    simp [hlen]
  · unfold fixedShape
    rw [hcont]
    rfl

/-- C2: the formatter's branch order: a non-finite result (NaN or either
infinity) formats to the literal `"Error"`; a finite result of magnitude at
least `10^maxDigits` formats to exponential notation with exactly six
fractional digits; and a fixed-notation output can only arise from a
magnitude strictly below `10^maxDigits`. -/
theorem C2_format_branch_order (q : ℚ) (m : ℕ) (b : Bool) :
    formatResult .nan m = "Error" ∧
    formatResult (.inf b) m = "Error" ∧
    (10 ^ m ≤ |q| →
      formatResult (.fin q) m = String.mk (toExponential6 q) ∧
      expShape6 (formatResult (.fin q) m).data = true) ∧
    (fixedShape (formatResult (.fin q) m).data = true → |q| < 10 ^ m) := by
  have hexp : ∀ hq : 10 ^ m ≤ |q|,
      formatResult (.fin q) m = String.mk (toExponential6 q) := by
    intro hq
    show (if 10 ^ m ≤ |q| then String.mk (toExponential6 q)
      else if m < (formattedStr (roundedNum q)).length then
        String.mk (fixedFallback (roundedNum q) m)
      else String.mk (formattedStr (roundedNum q))) = String.mk (toExponential6 q)
    rw [if_pos hq]
  have h1le : ∀ hq : 10 ^ m ≤ |q|, (1 : ℚ) ≤ |q| :=
    fun hq => le_trans (one_le_pow₀ (by norm_num)) hq
  refine ⟨rfl, rfl, fun hq => ⟨hexp hq, ?_⟩, ?_⟩
  · rw [hexp hq]
    show expShape6 (toExponential6 q) = true
    exact (toExponential6_expShape (h1le hq)).1
  · intro hfix
    by_contra hcon
    have hq : 10 ^ m ≤ |q| := not_lt.mp hcon
    rw [hexp hq] at hfix
    change fixedShape (toExponential6 q) = true at hfix
    rw [(toExponential6_expShape (h1le hq)).2] at hfix
    cases hfix

/-- C2 witness: the branch facts at `10^13` (exponential path) and `5`
(fixed path), precision 12. -/
theorem C2_format_branch_order_witness :
    formatResult (.fin (10 ^ 13)) 12 = "1.000000e+13" ∧
    expShape6 (formatResult (.fin (10 ^ 13)) 12).data = true ∧
    |(5 : ℚ)| < 10 ^ 12 := by
  have h := C2_format_branch_order (10 ^ 13) 12 false
  have h5 := C2_format_branch_order 5 12 false
  have hthr : (10 : ℚ) ^ 12 ≤ |(10 : ℚ) ^ 13| := by decide!
  obtain ⟨-, -, h3, -⟩ := h
  obtain ⟨he, hs⟩ := h3 hthr
  refine ⟨?_, hs, h5.2.2.2 (by decide!)⟩
  rw [he]
  decide!

theorem char_eq_of_toNat {c d : Char} (h : c.toNat = d.toNat) : c = d := by
  apply Char.ext
  apply UInt32.toNat.inj
  exact h

theorem sanitize_keeps {c : Char} (h : numericChar c = true ∨ c = 'E') :
    ((! (c = '<' || c = '>')) = true) ∧ ((! (c = '"' || c = '\'')) = true) ∧
    ((! (c.toNat ≤ 0x08 || c.toNat = 0x0B || c.toNat = 0x0C ||
      (0x0E ≤ c.toNat && c.toNat ≤ 0x1F))) = true) ∧ ((! (c = '&')) = true) := by
  rcases h with h | h
  · simp only [numericChar, Bool.or_eq_true, decide_eq_true_eq] at h
    rcases h with (((hd | h) | h) | h) | h
    · have hb : 48 ≤ c.toNat ∧ c.toNat ≤ 57 := by simpa [Char.isDigit] using hd
      obtain ⟨hb1, hb2⟩ := hb
      refine ⟨?_, ?_, ?_, ?_⟩ <;>
        simp only [Bool.not_eq_true', Bool.or_eq_false_iff, Bool.and_eq_false_iff,
          decide_eq_false_iff_not]
      · constructor <;> (intro heq; subst heq; revert hb1 hb2; decide)
      · constructor <;> (intro heq; subst heq; revert hb1 hb2; decide)
      · omega
      · intro heq; subst heq; revert hb1 hb2; decide
    · subst h; exact ⟨by decide, by decide, by decide, by decide⟩
    · subst h; exact ⟨by decide, by decide, by decide, by decide⟩
    · subst h; exact ⟨by decide, by decide, by decide, by decide⟩
    · subst h; exact ⟨by decide, by decide, by decide, by decide⟩
  · subst h; exact ⟨by decide, by decide, by decide, by decide⟩

/-- C9: the sanitizer's output never contains an angle bracket, quote,
apostrophe or ampersand, and its only control characters (code points below
32) are tab, newline and carriage return; and every string made of the
characters of numeric displays (digits, the decimal point, the
scientific-notation characters `e`, `E`, `+`, `-`) passes through
unchanged, so numeric display strings are fixed points of sanitization. -/
theorem C9_sanitizeOutput_safe (v : String) :
    (∀ c ∈ (sanitizeOutput v).data,
      ¬ c = '<' ∧ ¬ c = '>' ∧ ¬ c = '"' ∧ ¬ c = '\'' ∧ ¬ c = '&' ∧
      (c.toNat < 32 → c = '\t' ∨ c = '\n' ∨ c = '\r')) ∧
    ((∀ c ∈ v.data, numericChar c = true ∨ c = 'E') → sanitizeOutput v = v) := by
  constructor
  · intro c hc
    change c ∈ (((v.data.filter (fun c => ! (c = '<' || c = '>'))).filter
      (fun c => ! (c = '"' || c = '\''))).filter
      (fun c => ! (c.toNat ≤ 0x08 || c.toNat = 0x0B || c.toNat = 0x0C ||
        (0x0E ≤ c.toNat && c.toNat ≤ 0x1F)))).filter (fun c => ! (c = '&')) at hc
    obtain ⟨hc3, hp4⟩ := List.mem_filter.mp hc
    obtain ⟨hc2, hp3⟩ := List.mem_filter.mp hc3
    obtain ⟨hc1, hp2⟩ := List.mem_filter.mp hc2
    obtain ⟨-, hp1⟩ := List.mem_filter.mp hc1
    simp only [Bool.not_eq_true', Bool.or_eq_false_iff, Bool.and_eq_false_iff,
      decide_eq_false_iff_not] at hp1 hp2 hp3 hp4
    refine ⟨hp1.1, hp1.2, hp2.1, hp2.2, hp4, ?_⟩
    intro hlt
    obtain ⟨⟨⟨h8, h11⟩, h12⟩, h14⟩ := hp3
    have h9 : c.toNat = 9 ∨ c.toNat = 10 ∨ c.toNat = 13 := by
      rcases h14 with h14 | h14 <;> omega
    rcases h9 with h | h | h
    · exact Or.inl (char_eq_of_toNat (by rw [h]; decide))
    · exact Or.inr (Or.inl (char_eq_of_toNat (by rw [h]; decide)))
    · exact Or.inr (Or.inr (char_eq_of_toNat (by rw [h]; decide)))
  · intro hnum
    obtain ⟨l⟩ := v
    change String.mk ((((l.filter (fun c => ! (c = '<' || c = '>'))).filter
      (fun c => ! (c = '"' || c = '\''))).filter
      (fun c => ! (c.toNat ≤ 0x08 || c.toNat = 0x0B || c.toNat = 0x0C ||
        (0x0E ≤ c.toNat && c.toNat ≤ 0x1F)))).filter (fun c => ! (c = '&'))) =
      String.mk l
    rw [List.filter_eq_self.mpr (fun c hc => (sanitize_keeps (hnum c hc)).1),
      List.filter_eq_self.mpr (fun c hc => (sanitize_keeps (hnum c hc)).2.1),
      List.filter_eq_self.mpr (fun c hc => (sanitize_keeps (hnum c hc)).2.2.1),
      List.filter_eq_self.mpr (fun c hc => (sanitize_keeps (hnum c hc)).2.2.2)]

/-- C9 witness: the numeric display string `1.5e+3` is a fixed point. -/
theorem C9_sanitizeOutput_safe_witness : sanitizeOutput "1.5e+3" = "1.5e+3" :=
  (C9_sanitizeOutput_safe "1.5e+3").2 (by decide)

theorem applyTokens_inv (P : CalcState → Prop) (ts : List Token) (s : CalcState)
    (h0 : P s) (hstep : ∀ s' t, t ∈ ts → P s' → P (applyToken s' t)) :
    P (applyTokens s ts) := by
  induction ts generalizing s with
  | nil => exact h0
  | cons t rest ih =>
    exact ih (applyToken s t) (hstep s t (List.mem_cons_self t rest) h0)
      (fun s' t' ht' hP => hstep s' t' (List.mem_cons_of_mem t ht') hP)

theorem display_dot_length (l : List Char) :
    (l.filter (fun c => ! (c = '.'))).length + dotCount l = l.length := by
  induction l with
  | nil => rfl
  | cons a l ih =>
    rw [List.filter_cons, dotCount_cons, List.length_cons]
    by_cases h : a = '.'
    · rw [if_pos h, if_neg (by simp [h])]
      omega
    · rw [if_neg h, if_pos (by simp [h]), List.length_cons]
      omega

/-- The state invariant maintained by digit and decimal-point input: no
error, not waiting, fixed precision, digit count within the budget and a
coherent decimal-point flag. -/
def BudgetInv (m : ℕ) (s : CalcState) : Prop :=
  s.isError = false ∧ s.waitingForOperand = false ∧ s.maxDigits = m ∧
    getDisplayLength s ≤ m ∧ dotCount s.currentInput.data ≤ 1 ∧
    (s.hasDecimal = true ↔ dotCount s.currentInput.data = 1)

theorem inputNumber_budget {m : ℕ} {s : CalcState} (hm : 1 ≤ m)
    (hI : BudgetInv m s) (c : Char) :
    BudgetInv m (inputNumber s (String.singleton c)) := by
  obtain ⟨he, hw, hmax, hdisp, hdot, hiff⟩ := hI
  by_cases hv : isValidNumber (String.singleton c) = true
  · have hcd : c.isDigit = true := hv
    have hcdot : ¬ (c = '.') := fun hcc => by
      rw [hcc] at hcd
      exact absurd hcd (by decide)
    have hval : validateInputLength (s.currentInput ++ String.singleton c)
        s.maxDigits = true := by
      apply decide_eq_true
      show (s.currentInput ++ String.singleton c).length ≤ s.maxDigits * 2 + 10
      have hl1 : (s.currentInput ++ String.singleton c).length
          = s.currentInput.length + 1 := by
        show (s.currentInput.data ++ [c]).length = s.currentInput.data.length + 1
        simp
      have hl2 := display_dot_length s.currentInput.data
      have hl3 : getDisplayLength s
          = (s.currentInput.data.filter (fun c => ! (c = '.'))).length := rfl
      have hl4 : s.currentInput.length = s.currentInput.data.length := rfl
      omega
    simp only [inputNumber]
    rw [if_neg (show ¬ ((! isValidNumber (String.singleton c)) = true) by
      rw [hv]; decide)]
    rw [if_neg (show ¬ (s.isError = true) by rw [he]; decide)]
    rw [hw]
    rw [if_neg (show ¬ (false = true) by decide)]
    rw [if_neg (show ¬ ((! validateInputLength (s.currentInput ++ String.singleton c)
      s.maxDigits) = true) by rw [hval]; decide)]
    rw [if_neg (show ¬ (false = true) by decide)]
    by_cases h0 : s.currentInput = "0"
    · rw [if_pos h0]
      have hcur0 : dotCount s.currentInput.data = 0 := by rw [h0]; decide
      have hdf : s.hasDecimal = false := by
        by_contra hb
        have hb' : s.hasDecimal = true := by revert hb; cases s.hasDecimal <;> simp
        have h1 := hiff.mp hb'
        rw [hcur0] at h1
        cases h1
      have hnew : dotCount (String.singleton c).data = 0 := by
        show dotCount [c] = 0
        simp [dotCount, hcdot]
      refine ⟨he, rfl, hmax, ?_, ?_, ?_⟩
      · show (([c] : List Char).filter (fun c => ! (c = '.'))).length ≤ m
        have := List.length_filter_le (fun c => ! (c = '.')) [c]
        simp only [List.length_singleton] at this
        omega
      · show dotCount [c] ≤ 1
        rw [show dotCount [c] = dotCount (String.singleton c).data from rfl, hnew]
        omega
      · show s.hasDecimal = true ↔ dotCount (String.singleton c).data = 1
        rw [hnew, hdf]
        simp
    · rw [if_neg h0]
      by_cases hfull : getDisplayLength s < s.maxDigits
      · rw [if_pos hfull]
        have hc0 : dotCount [c] = 0 := by simp [dotCount, hcdot]
        refine ⟨he, rfl, hmax, ?_, ?_, ?_⟩
        · show ((s.currentInput.data ++ [c]).filter (fun c => ! (c = '.'))).length ≤ m
          rw [List.filter_append, List.length_append]
          have h1 := List.length_filter_le (fun c => ! (c = '.')) [c]
          simp only [List.length_singleton] at h1
          have h2 : getDisplayLength s < m := hmax ▸ hfull
          have h3 : getDisplayLength s
              = (s.currentInput.data.filter (fun c => ! (c = '.'))).length := rfl
          omega
        · show dotCount (s.currentInput.data ++ [c]) ≤ 1
          rw [dotCount_append, hc0]
          omega
        · show s.hasDecimal = true ↔ dotCount (s.currentInput.data ++ [c]) = 1
          rw [dotCount_append, hc0]
          simpa using hiff
      · rw [if_neg hfull]
        exact ⟨he, hw, hmax, hdisp, hdot, hiff⟩
  · have hvf : isValidNumber (String.singleton c) = false := by
      revert hv; cases isValidNumber (String.singleton c) <;> simp
    simp only [inputNumber]
    rw [if_pos (show (! isValidNumber (String.singleton c)) = true by
      rw [hvf]; decide)]
    exact ⟨he, hw, hmax, hdisp, hdot, hiff⟩

theorem inputDecimal_budget {m : ℕ} {s : CalcState} (hI : BudgetInv m s) :
    BudgetInv m (inputDecimal s) := by
  obtain ⟨he, hw, hmax, hdisp, hdot, hiff⟩ := hI
  have hval : validateInputLength (s.currentInput ++ ".") s.maxDigits = true := by
    apply decide_eq_true
    show (s.currentInput ++ ".").length ≤ s.maxDigits * 2 + 10
    have hl1 : (s.currentInput ++ ".").length = s.currentInput.length + 1 := by
      show (s.currentInput.data ++ ['.']).length = s.currentInput.data.length + 1
      simp
    have hl2 := display_dot_length s.currentInput.data
    have hl3 : getDisplayLength s
        = (s.currentInput.data.filter (fun c => ! (c = '.'))).length := rfl
    have hl4 : s.currentInput.length = s.currentInput.data.length := rfl
    omega
  simp only [inputDecimal]
  rw [if_neg (show ¬ (s.isError = true) by rw [he]; decide)]
  rw [hw]
  rw [if_neg (show ¬ (false = true) by decide)]
  rw [if_neg (show ¬ ((! validateInputLength (s.currentInput ++ ".")
    s.maxDigits) = true) by rw [hval]; decide)]
  rw [if_neg (show ¬ (false = true) by decide)]
  by_cases hhd : s.hasDecimal = true
  · rw [if_neg (show ¬ (((! s.hasDecimal) &&
      decide (getDisplayLength s < s.maxDigits)) = true) by rw [hhd]; simp)]
    exact ⟨he, hw, hmax, hdisp, hdot, hiff⟩
  · have hhdf : s.hasDecimal = false := by revert hhd; cases s.hasDecimal <;> simp
    have hdot0 : dotCount s.currentInput.data = 0 := by
      by_contra hne
      have h1 : dotCount s.currentInput.data = 1 := by omega
      have h2 := hiff.mpr h1
      rw [hhdf] at h2
      cases h2
    by_cases hfull : getDisplayLength s < s.maxDigits
    · rw [if_pos (show ((! s.hasDecimal) &&
        decide (getDisplayLength s < s.maxDigits)) = true by rw [hhdf]; simp [hfull])]
      have hdc : dotCount ['.'] = 1 := by decide
      refine ⟨he, rfl, hmax, ?_, ?_, ?_⟩
      · show ((s.currentInput.data ++ ['.']).filter (fun c => ! (c = '.'))).length ≤ m
        rw [List.filter_append,
          show (['.'].filter (fun c => ! (c = '.'))) = [] from rfl,
          List.append_nil]
        exact hdisp
      · show dotCount (s.currentInput.data ++ ['.']) ≤ 1
        rw [dotCount_append, hdot0, hdc]
      · show true = true ↔ dotCount (s.currentInput.data ++ ['.']) = 1
        rw [dotCount_append, hdot0, hdc]
        simp
    · rw [if_neg (show ¬ (((! s.hasDecimal) &&
        decide (getDisplayLength s < s.maxDigits)) = true) by rw [hhdf]; simp [hfull])]
      exact ⟨he, hw, hmax, hdisp, hdot, hiff⟩

/-- C4: starting from the initial state, any sequence of digit and
decimal-point tokens keeps the digit count of `currentInput` (the display
length, which excludes the decimal point) within `maxDigits`; and a digit
pressed on a full display (in a non-error, non-waiting state whose content
is not the fresh `"0"` and whose length leaves the oversize guard
satisfied) is silently ignored: the state, error flag included, is
returned unchanged. -/
theorem C4_digit_budget (m histLimit : ℕ) (hm : 1 ≤ m) (ts : List Token)
    (hts : ∀ t ∈ ts, (∃ c, t = Token.digit c) ∨ t = Token.act CalcAction.decimal) :
    getDisplayLength (applyTokens (initState m histLimit) ts) ≤ m ∧
    (∀ s : CalcState, s.isError = false → s.waitingForOperand = false →
      ¬ s.currentInput = "0" → s.maxDigits ≤ getDisplayLength s →
      s.currentInput.length + 1 ≤ 2 * s.maxDigits + 10 →
      ∀ c, inputNumber s (String.singleton c) = s) := by
  constructor
  · have hinit : BudgetInv m (initState m histLimit) := by
      refine ⟨rfl, rfl, rfl, ?_, ?_, ?_⟩
      · show ((("0" : String).data.filter (fun c => ! (c = '.'))).length) ≤ m
        rw [show (("0" : String).data.filter (fun c => ! (c = '.'))).length = 1 from rfl]
        omega
      · show dotCount ("0" : String).data ≤ 1
        decide
      · show false = true ↔ dotCount ("0" : String).data = 1
        decide
    have h := applyTokens_inv (BudgetInv m) ts (initState m histLimit) hinit
      (fun s' t ht hP => by
        rcases hts t ht with ⟨c, rfl⟩ | rfl
        · exact inputNumber_budget hm hP c
        · exact inputDecimal_budget hP)
    exact h.2.2.2.1
  · intro s he hw h0 hfull hlen c
    simp only [inputNumber]
    by_cases hv : isValidNumber (String.singleton c) = true
    · have hval : validateInputLength (s.currentInput ++ String.singleton c)
          s.maxDigits = true := by
        apply decide_eq_true
        show (s.currentInput ++ String.singleton c).length ≤ s.maxDigits * 2 + 10
        have hl1 : (s.currentInput ++ String.singleton c).length
            = s.currentInput.length + 1 := by
          show (s.currentInput.data ++ [c]).length = s.currentInput.data.length + 1
          simp
        omega
      rw [if_neg (show ¬ ((! isValidNumber (String.singleton c)) = true) by
        rw [hv]; decide)]
      rw [if_neg (show ¬ (s.isError = true) by rw [he]; decide)]
      rw [hw]
      rw [if_neg (show ¬ (false = true) by decide)]
      rw [if_neg (show ¬ ((! validateInputLength (s.currentInput ++ String.singleton c)
        s.maxDigits) = true) by rw [hval]; decide)]
      rw [if_neg (show ¬ (false = true) by decide)]
      rw [if_neg h0]
      rw [if_neg (not_lt.mpr hfull)]
    · have hvf : isValidNumber (String.singleton c) = false := by
        revert hv; cases isValidNumber (String.singleton c) <;> simp
      rw [if_pos (show (! isValidNumber (String.singleton c)) = true by
        rw [hvf]; decide)]

/-- C4 witness: `7`, `.`, `5`, `9` at precision 2 stays within two digits
(the final `9` is ignored on the full display). -/
theorem C4_digit_budget_witness :
    getDisplayLength (applyTokens (initState 2 50)
      [.digit '7', .act .decimal, .digit '5', .digit '9']) ≤ 2 := by
  refine (C4_digit_budget 2 50 (by decide)
    [.digit '7', .act .decimal, .digit '5', .digit '9'] ?_).1
  intro t ht
  rcases List.mem_cons.mp ht with rfl | ht
  · exact Or.inl ⟨'7', rfl⟩
  rcases List.mem_cons.mp ht with rfl | ht
  · exact Or.inr rfl
  rcases List.mem_cons.mp ht with rfl | ht
  · exact Or.inl ⟨'5', rfl⟩
  rcases List.mem_cons.mp ht with rfl | ht
  · exact Or.inl ⟨'9', rfl⟩
  cases ht

theorem calculate_props {s : CalcState}
    (hop : s.operator = none ∨ ∃ c, s.operator = some c ∧ isValidOperator c = true) :
    ((calculate s).1 = s ∧ (calculate s).2 = none ∧
      (s.isError = true ∨ s.operator = none ∨ s.previousInput = none)) ∨
    (∃ msg, (calculate s).1 = showError s msg ∧ (calculate s).2 = none ∧
      (msg = "Invalid input" ∨ msg = "Cannot divide by zero" ∨
       msg = "Invalid result" ∨ msg = "Overflow")) ∨
    (∃ r prev op cur, s.operator = some op ∧ s.previousInput = some prev ∧
      (calculate s).2 = some r ∧
      (calculate s).1 = addToHistory
        { s with
          currentInput := formatResult r s.maxDigits,
          previousInput := none,
          operator := none, waitingForOperand := true,
          hasDecimal := (formatResult r s.maxDigits).contains '.',
          decimalPlaces := fracLen (formatResult r s.maxDigits).data }
        (buildExpression prev op cur) r ∧
      r.isNaNJ = false ∧ r.isFiniteJ = true) := by
  by_cases he : s.isError = true
  · left
    have hcalc : calculate s = (s, none) := by
      unfold calculate
      rw [if_pos he]
    rw [hcalc]
    exact ⟨rfl, rfl, Or.inl he⟩
  rcases hopc : s.operator with _ | opc
  · left
    have hcalc : calculate s = (s, none) := by
      unfold calculate
      rw [if_neg he, hopc]
    rw [hcalc]
    exact ⟨rfl, rfl, Or.inr (Or.inl rfl)⟩
  rcases hprevc : s.previousInput with _ | prevv
  · left
    have hcalc : calculate s = (s, none) := by
      unfold calculate
      rw [if_neg he, hopc, hprevc]
    rw [hcalc]
    exact ⟨rfl, rfl, Or.inr (Or.inr rfl)⟩
  have hvo : isValidOperator opc = true := by
    rcases hop with h | ⟨c, hceq, hcval⟩
    · rw [hopc] at h
      cases h
    · rw [hopc] at hceq
      rw [Option.some.inj hceq]
      exact hcval
  have hc : calculate s =
      (if prevv.isNaNJ || (parseNumber s.currentInput).isNaNJ
        then (showError s "Invalid input", none)
        else if opc = '÷' && jeq0 (parseNumber s.currentInput)
          then (showError s "Cannot divide by zero", none)
        else
          match (if opc = '+' then some (jadd prevv (parseNumber s.currentInput))
                 else if opc = '−' then some (jsub prevv (parseNumber s.currentInput))
                 else if opc = '×' then some (jmul prevv (parseNumber s.currentInput))
                 else if opc = '÷' then some (jdiv prevv (parseNumber s.currentInput))
                 else none) with
          | none => (s, none)
          | some result =>
            if result.isNaNJ then (showError s "Invalid result", none)
            else if ! result.isFiniteJ then (showError s "Overflow", none)
            else
              (addToHistory
                { s with
                  currentInput := formatResult result s.maxDigits,
                  previousInput := none,
                  operator := none, waitingForOperand := true,
                  hasDecimal := (formatResult result s.maxDigits).contains '.',
                  decimalPlaces := fracLen (formatResult result s.maxDigits).data }
                (buildExpression prevv opc (parseNumber s.currentInput)) result,
               some result)) := by
    unfold calculate
    rw [if_neg he, hopc, hprevc]
  rw [hc]
  by_cases hnan : (prevv.isNaNJ || (parseNumber s.currentInput).isNaNJ) = true
  · rw [if_pos hnan]
    right; left
    exact ⟨"Invalid input", rfl, rfl, Or.inl rfl⟩
  rw [if_neg hnan]
  by_cases hdiv : (decide (opc = '÷') && jeq0 (parseNumber s.currentInput)) = true
  · rw [if_pos hdiv]
    right; left
    exact ⟨"Cannot divide by zero", rfl, rfl, Or.inr (Or.inl rfl)⟩
  rw [if_neg hdiv]
  split
  · next heq =>
    exfalso
    simp only [isValidOperator, Bool.or_eq_true, decide_eq_true_eq] at hvo
    rcases hvo with ((h | h) | h) | h <;> rw [h] at heq <;> simp at heq
  · next result heq =>
    by_cases hrnan : result.isNaNJ = true
    · rw [if_pos hrnan]
      right; left
      exact ⟨"Invalid result", rfl, rfl, Or.inr (Or.inr (Or.inl rfl))⟩
    rw [if_neg hrnan]
    by_cases hrfin : (! result.isFiniteJ) = true
    · rw [if_pos hrfin]
      right; left
      exact ⟨"Overflow", rfl, rfl, Or.inr (Or.inr (Or.inr rfl))⟩
    rw [if_neg hrfin]
    right; right
    have hn2 : result.isNaNJ = false := by
      revert hrnan; cases result.isNaNJ <;> simp
    have hf2 : result.isFiniteJ = true := by
      revert hrfin; cases result.isFiniteJ <;> simp
    exact ⟨result, prevv, opc, parseNumber s.currentInput, rfl, rfl, rfl, rfl, hn2, hf2⟩

theorem string_contains_dot_iff {t : String} (h : dotCount t.data ≤ 1) :
    t.contains '.' = true ↔ dotCount t.data = 1 := by
  constructor
  · intro hm
    have hmem : '.' ∈ t.data := (String.contains_iff t '.').mp hm
    have hpos : 0 < dotCount t.data := by
      unfold dotCount
      rw [List.countP_pos]
      exact ⟨'.', hmem, by simp⟩
    omega
  · intro h1
    apply (String.contains_iff t '.').mpr
    have hpos : 0 < dotCount t.data := by omega
    unfold dotCount at hpos
    rw [List.countP_pos] at hpos
    obtain ⟨a, ha, hpa⟩ := hpos
    simp only [decide_eq_true_eq] at hpa
    rwa [hpa] at ha

/-- The decimal-flag invariant of the core editing tokens: the stored
operator (if any) is one of the four valid symbols, and outside error
states the display holds at most one decimal point, with `hasDecimal` true
exactly when it holds one. -/
def DotInv (s : CalcState) : Prop :=
  (s.operator = none ∨ ∃ c, s.operator = some c ∧ isValidOperator c = true) ∧
  (s.isError = false →
    dotCount s.currentInput.data ≤ 1 ∧
      (s.hasDecimal = true ↔ dotCount s.currentInput.data = 1))

theorem clear_dotInv (s : CalcState) : DotInv (clear s) := by
  refine ⟨Or.inl rfl, fun _ => ⟨?_, ?_⟩⟩
  · show dotCount ("0" : String).data ≤ 1
    decide
  · show false = true ↔ dotCount ("0" : String).data = 1
    decide

theorem clearEntry_dotInv {s : CalcState} (h : DotInv s) : DotInv (clearEntry s) := by
  refine ⟨h.1, fun _ => ⟨?_, ?_⟩⟩
  · show dotCount ("0" : String).data ≤ 1
    decide
  · show false = true ↔ dotCount ("0" : String).data = 1
    decide

theorem backspace_dotInv {s : CalcState} (h : DotInv s) : DotInv (backspace s) := by
  obtain ⟨hop, hrest⟩ := h
  simp only [backspace]
  by_cases he : s.isError = true
  · rw [if_pos he]
    exact clear_dotInv s
  rw [if_neg he]
  have hee : s.isError = false := by revert he; cases s.isError <;> simp
  obtain ⟨hd1, hd2⟩ := hrest hee
  by_cases hlen : 1 < s.currentInput.length
  · rw [if_pos hlen]
    have hne : s.currentInput.data ≠ [] := by
      intro h0
      have hl : s.currentInput.length = s.currentInput.data.length := rfl
      rw [h0] at hl
      simp at hl
      omega
    have hsplit : dotCount s.currentInput.data
        = dotCount s.currentInput.data.dropLast
          + dotCount [s.currentInput.data.getLast hne] := by
      conv_lhs => rw [← List.dropLast_append_getLast hne]
      rw [dotCount_append]
    by_cases hlast : s.currentInput.data.getLast? = some '.'
    · rw [if_pos hlast]
      have hg : s.currentInput.data.getLast hne = '.' := by
        rw [List.getLast?_eq_getLast _ hne] at hlast
        exact Option.some.inj hlast
      have hdl : dotCount s.currentInput.data.dropLast = 0 := by
        rw [hg] at hsplit
        have hone : dotCount ['.'] = 1 := by decide
        omega
      refine ⟨hop, fun _ => ⟨?_, ?_⟩⟩
      · show dotCount (String.mk s.currentInput.data.dropLast).data ≤ 1
        show dotCount s.currentInput.data.dropLast ≤ 1
        omega
      · show false = true ↔ dotCount s.currentInput.data.dropLast = 1
        rw [hdl]
        simp
    · rw [if_neg hlast]
      have hdl : dotCount s.currentInput.data.dropLast
          = dotCount s.currentInput.data := by
        have hgne : ¬ (s.currentInput.data.getLast hne = '.') := by
          intro hg
          apply hlast
          rw [List.getLast?_eq_getLast _ hne, hg]
        have hz : dotCount [s.currentInput.data.getLast hne] = 0 := by
          unfold dotCount
          rw [List.countP_singleton]
          simp [hgne]
        omega
      by_cases hhd : s.hasDecimal = true
      · rw [if_pos hhd]
        refine ⟨hop, fun _ => ⟨?_, ?_⟩⟩
        · show dotCount s.currentInput.data.dropLast ≤ 1
          omega
        · show s.hasDecimal = true ↔ dotCount s.currentInput.data.dropLast = 1
          rw [hdl]
          exact hd2
      · rw [if_neg hhd]
        refine ⟨hop, fun _ => ⟨?_, ?_⟩⟩
        · show dotCount s.currentInput.data.dropLast ≤ 1
          omega
        · show s.hasDecimal = true ↔ dotCount s.currentInput.data.dropLast = 1
          rw [hdl]
          exact hd2
  · rw [if_neg hlen]
    refine ⟨hop, fun _ => ⟨?_, ?_⟩⟩
    · show dotCount ("0" : String).data ≤ 1
      decide
    · show false = true ↔ dotCount ("0" : String).data = 1
      decide

theorem inputNumber_dotInv {s : CalcState} (h : DotInv s) (c : Char) :
    DotInv (inputNumber s (String.singleton c)) := by
  simp only [inputNumber]
  by_cases hv : isValidNumber (String.singleton c) = true
  · have hcd : c.isDigit = true := hv
    have hcdot : ¬ (c = '.') := fun hcc => by
      rw [hcc] at hcd
      exact absurd hcd (by decide)
    have hc0 : dotCount [c] = 0 := by simp [dotCount, hcdot]
    rw [if_neg (show ¬ ((! isValidNumber (String.singleton c)) = true) by
      rw [hv]; decide)]
    by_cases hguard : (! validateInputLength
        (if s.waitingForOperand = true then String.singleton c
         else s.currentInput ++ String.singleton c) s.maxDigits) = true
    · rw [if_pos hguard]
      exact ⟨h.1, fun habs => Bool.noConfusion habs⟩
    rw [if_neg hguard]
    by_cases he : s.isError = true
    · rw [if_pos he]
      rw [show (clear s).waitingForOperand = false from rfl]
      rw [if_neg (show ¬ (false = true) by decide)]
      rw [if_pos (show (clear s).currentInput = "0" from rfl)]
      refine ⟨Or.inl rfl, fun _ => ⟨?_, ?_⟩⟩
      · show dotCount [c] ≤ 1
        rw [hc0]
        decide
      · show false = true ↔ dotCount [c] = 1
        rw [hc0]
        simp
    rw [if_neg he]
    have hee : s.isError = false := by revert he; cases s.isError <;> simp
    obtain ⟨hop, hrest⟩ := h
    obtain ⟨hd1, hd2⟩ := hrest hee
    by_cases hwb : s.waitingForOperand = true
    · rw [if_pos hwb]
      refine ⟨hop, fun _ => ⟨?_, ?_⟩⟩
      · show dotCount [c] ≤ 1
        rw [hc0]
        decide
      · show false = true ↔ dotCount [c] = 1
        rw [hc0]
        simp
    rw [if_neg hwb]
    by_cases h0 : s.currentInput = "0"
    · rw [if_pos h0]
      have hcur0 : dotCount s.currentInput.data = 0 := by rw [h0]; decide
      have hdf : s.hasDecimal = false := by
        by_contra hb
        have hb' : s.hasDecimal = true := by revert hb; cases s.hasDecimal <;> simp
        have h1 := hd2.mp hb'
        rw [hcur0] at h1
        cases h1
      refine ⟨hop, fun _ => ⟨?_, ?_⟩⟩
      · show dotCount [c] ≤ 1
        rw [hc0]
        decide
      · show s.hasDecimal = true ↔ dotCount [c] = 1
        rw [hdf, hc0]
        simp
    rw [if_neg h0]
    by_cases hfull : getDisplayLength s < s.maxDigits
    · rw [if_pos hfull]
      refine ⟨hop, fun _ => ⟨?_, ?_⟩⟩
      · show dotCount (s.currentInput.data ++ [c]) ≤ 1
        rw [dotCount_append, hc0]
        omega
      · show s.hasDecimal = true ↔ dotCount (s.currentInput.data ++ [c]) = 1
        rw [dotCount_append, hc0]
        simpa using hd2
    · rw [if_neg hfull]
      exact ⟨hop, fun _ => ⟨hd1, hd2⟩⟩
  · have hvf : isValidNumber (String.singleton c) = false := by
      revert hv; cases isValidNumber (String.singleton c) <;> simp
    rw [if_pos (show (! isValidNumber (String.singleton c)) = true by
      rw [hvf]; decide)]
    exact h

theorem inputDecimal_dotInv {s : CalcState} (h : DotInv s) :
    DotInv (inputDecimal s) := by
  simp only [inputDecimal]
  by_cases hguard : (! validateInputLength
      (if s.waitingForOperand = true then "0." else s.currentInput ++ ".")
      s.maxDigits) = true
  · rw [if_pos hguard]
    exact ⟨h.1, fun habs => Bool.noConfusion habs⟩
  rw [if_neg hguard]
  by_cases he : s.isError = true
  · rw [if_pos he]
    rw [show (clear s).waitingForOperand = false from rfl]
    rw [if_neg (show ¬ (false = true) by decide)]
    by_cases hfull : getDisplayLength (clear s) < (clear s).maxDigits
    · rw [if_pos (show ((! (clear s).hasDecimal) &&
        decide (getDisplayLength (clear s) < (clear s).maxDigits)) = true by
          rw [show (clear s).hasDecimal = false from rfl]; simp [hfull])]
      refine ⟨Or.inl rfl, fun _ => ⟨?_, ?_⟩⟩
      · show dotCount (("0" : String).data ++ ['.']) ≤ 1
        decide
      · show true = true ↔ dotCount (("0" : String).data ++ ['.']) = 1
        decide
    · rw [if_neg (show ¬ (((! (clear s).hasDecimal) &&
        decide (getDisplayLength (clear s) < (clear s).maxDigits)) = true) by
          rw [show (clear s).hasDecimal = false from rfl]; simp [hfull])]
      exact clear_dotInv s
  rw [if_neg he]
  have hee : s.isError = false := by revert he; cases s.isError <;> simp
  obtain ⟨hop, hrest⟩ := h
  obtain ⟨hd1, hd2⟩ := hrest hee
  by_cases hwb : s.waitingForOperand = true
  · rw [if_pos hwb]
    refine ⟨hop, fun _ => ⟨?_, ?_⟩⟩
    · show dotCount ("0." : String).data ≤ 1
      decide
    · show true = true ↔ dotCount ("0." : String).data = 1
      decide
  rw [if_neg hwb]
  by_cases hcase : ((! s.hasDecimal) &&
      decide (getDisplayLength s < s.maxDigits)) = true
  · rw [if_pos hcase]
    have hhdf : s.hasDecimal = false := by
      by_contra hb
      have hb' : s.hasDecimal = true := by revert hb; cases s.hasDecimal <;> simp
      rw [hb'] at hcase
      simp at hcase
    have hd0 : dotCount s.currentInput.data = 0 := by
      by_contra hne'
      have h1 : dotCount s.currentInput.data = 1 := by omega
      have h2 := hd2.mpr h1
      rw [hhdf] at h2
      cases h2
    refine ⟨hop, fun _ => ⟨?_, ?_⟩⟩
    · show dotCount (s.currentInput.data ++ ['.']) ≤ 1
      rw [dotCount_append, hd0]
      decide
    · show true = true ↔ dotCount (s.currentInput.data ++ ['.']) = 1
      rw [dotCount_append, hd0]
      decide
  · rw [if_neg hcase]
    exact ⟨hop, fun _ => ⟨hd1, hd2⟩⟩

theorem calculate_dotInv {s : CalcState} (h : DotInv s) : DotInv (calculate s).1 := by
  obtain ⟨hop, hrest⟩ := h
  rcases calculate_props hop with ⟨h1, h2, h3⟩ | ⟨msg, h1, h2, h3⟩ |
    ⟨r, prev, op, cur, hso, hsp, h2, h1, hn2, hf2⟩
  · rw [h1]
    exact ⟨hop, hrest⟩
  · rw [h1]
    exact ⟨hop, fun habs => Bool.noConfusion habs⟩
  · rw [h1]
    refine ⟨Or.inl rfl, fun _ => ⟨?_, ?_⟩⟩
    · show dotCount (formatResult r s.maxDigits).data ≤ 1
      exact formatResult_dots r s.maxDigits
    · show (formatResult r s.maxDigits).contains '.' = true ↔
        dotCount (formatResult r s.maxDigits).data = 1
      exact string_contains_dot_iff (formatResult_dots r s.maxDigits)

theorem inputOperator_dotInv {s : CalcState} {op : Char}
    (hvo : isValidOperator op = true) (h : DotInv s) :
    DotInv (inputOperator s op) := by
  obtain ⟨hop, hrest⟩ := h
  simp only [inputOperator]
  by_cases he : s.isError = true
  · rw [if_pos he]
    exact ⟨hop, hrest⟩
  rw [if_neg he]
  have hee : s.isError = false := by revert he; cases s.isError <;> simp
  by_cases hprev : s.previousInput = none
  · rw [if_pos hprev]
    exact ⟨Or.inr ⟨op, rfl, hvo⟩, fun _ => hrest hee⟩
  rw [if_neg hprev]
  by_cases hopn : s.operator ≠ none
  · rw [if_pos hopn]
    rcases calculate_props hop with ⟨h1, h2, h3⟩ | ⟨msg, h1, h2, h3⟩ |
      ⟨r, prev, opc, cur, hso, hsp, h2, h1, hn2, hf2⟩
    · rcases h3 with hcon | hcon | hcon
      · exact absurd hcon he
      · exact absurd hcon hopn
      · exact absurd hcon hprev
    · rw [h1, h2]
      exact ⟨Or.inr ⟨op, rfl, hvo⟩, fun habs => Bool.noConfusion habs⟩
    · rw [h1, h2]
      refine ⟨Or.inr ⟨op, rfl, hvo⟩, fun _ => ⟨?_, ?_⟩⟩
      · show dotCount (formatResult r s.maxDigits).data ≤ 1
        exact formatResult_dots r s.maxDigits
      · show (formatResult r s.maxDigits).contains '.' = true ↔
          dotCount (formatResult r s.maxDigits).data = 1
        exact string_contains_dot_iff (formatResult_dots r s.maxDigits)
  · rw [if_neg hopn]
    exact ⟨Or.inr ⟨op, rfl, hvo⟩, fun _ => hrest hee⟩

/-- C7 counterexample: the claim says `hasDecimal` tracks the decimal point
in every reachable state through every operation, including unary
operations; but after `5` then percentage the display is `0.05` (one `.`)
while `hasDecimal` is still `false` - `calculatePercentage` overwrites
`currentInput` without updating the flag. -/
theorem C7_counterexample :
    (applyTokens (initState 12 50)
      [.digit '5', .act .percentage]).currentInput = "0.05" ∧
    dotCount (applyTokens (initState 12 50)
      [.digit '5', .act .percentage]).currentInput.data = 1 ∧
    (applyTokens (initState 12 50)
      [.digit '5', .act .percentage]).hasDecimal = false := by
  refine ⟨by decide!, by decide!, by decide!⟩

/-- C7 (amended): restricted to the core editing and calculation tokens -
digits, validated operator presses, the decimal point, equals, backspace,
clear and clear-entry - every reachable non-error state shows at most one
decimal point and has `hasDecimal` true exactly when it shows one; the
unary operations and memory recall are excluded because they overwrite
`currentInput` without maintaining the flag. -/
theorem C7_hasDecimal_amended (m histLimit : ℕ) (ts : List Token)
    (hts : ∀ t ∈ ts, (∃ c, t = Token.digit c) ∨ (∃ c, t = Token.op c) ∨
      t = .act .decimal ∨ t = .act .equals ∨ t = .act .backspace ∨
      t = .act .clear ∨ t = .act .clearEntry)
    (herr : (applyTokens (initState m histLimit) ts).isError = false) :
    dotCount (applyTokens (initState m histLimit) ts).currentInput.data ≤ 1 ∧
      ((applyTokens (initState m histLimit) ts).hasDecimal = true ↔
        dotCount (applyTokens (initState m histLimit) ts).currentInput.data = 1) := by
  have hinit : DotInv (initState m histLimit) := by
    refine ⟨Or.inl rfl, fun _ => ⟨?_, ?_⟩⟩
    · show dotCount ("0" : String).data ≤ 1
      decide
    · show false = true ↔ dotCount ("0" : String).data = 1
      decide
  have h := applyTokens_inv DotInv ts (initState m histLimit) hinit
    (fun s' t ht hP => by
      rcases hts t ht with ⟨c, rfl⟩ | ⟨c, rfl⟩ | rfl | rfl | rfl | rfl | rfl
      · exact inputNumber_dotInv hP c
      · show DotInv (if isValidOperator c = true then inputOperator s' c else s')
        by_cases hvo : isValidOperator c = true
        · rw [if_pos hvo]
          exact inputOperator_dotInv hvo hP
        · rw [if_neg hvo]
          exact hP
      · exact inputDecimal_dotInv hP
      · exact calculate_dotInv hP
      · exact backspace_dotInv hP
      · exact clear_dotInv s'
      · exact clearEntry_dotInv hP)
  exact h.2 herr

/-- C7 witness: after `1`, `.`, `5`, `+`, `2`, `=` the display is `3.5`
with a coherent flag. -/
theorem C7_hasDecimal_amended_witness :
    dotCount (applyTokens (initState 12 50)
      [.digit '1', .act .decimal, .digit '5', .op '+', .digit '2',
       .act .equals]).currentInput.data ≤ 1 ∧
    ((applyTokens (initState 12 50)
      [.digit '1', .act .decimal, .digit '5', .op '+', .digit '2',
       .act .equals]).hasDecimal = true ↔
      dotCount (applyTokens (initState 12 50)
        [.digit '1', .act .decimal, .digit '5', .op '+', .digit '2',
         .act .equals]).currentInput.data = 1) := by
  refine C7_hasDecimal_amended 12 50
    [.digit '1', .act .decimal, .digit '5', .op '+', .digit '2', .act .equals]
    ?_ (by decide!)
  intro t ht
  rcases List.mem_cons.mp ht with rfl | ht
  · exact Or.inl ⟨'1', rfl⟩
  rcases List.mem_cons.mp ht with rfl | ht
  · exact Or.inr (Or.inr (Or.inl rfl))
  rcases List.mem_cons.mp ht with rfl | ht
  · exact Or.inl ⟨'5', rfl⟩
  rcases List.mem_cons.mp ht with rfl | ht
  · exact Or.inr (Or.inl ⟨'+', rfl⟩)
  rcases List.mem_cons.mp ht with rfl | ht
  · exact Or.inl ⟨'2', rfl⟩
  rcases List.mem_cons.mp ht with rfl | ht
  · exact Or.inr (Or.inr (Or.inr (Or.inl rfl)))
  cases ht

theorem startsChars_head {p : Char} {ps cs : List Char}
    (h : startsChars (p :: ps) cs = true) : p ∈ cs := by
  rcases cs with _ | ⟨c, cs'⟩
  · cases h
  · have h' : (decide (p = c) && startsChars ps cs') = true := h
    simp only [Bool.and_eq_true, decide_eq_true_eq] at h'
    rw [h'.1]
    exact List.mem_cons_self c cs'

theorem readSign_subset {l : List Char} : ∀ x ∈ (readSign l).2, x ∈ l := by
  intro x hx
  rcases l with _ | ⟨c, r⟩
  · exact hx
  · change x ∈ (if c = '-' then (true, r)
      else if c = '+' then (false, r) else (false, c :: r) : Bool × List Char).2 at hx
    by_cases h1 : c = '-'
    · rw [if_pos h1] at hx
      exact List.mem_cons_of_mem c hx
    rw [if_neg h1] at hx
    by_cases h2 : c = '+'
    · rw [if_pos h2] at hx
      exact List.mem_cons_of_mem c hx
    · rw [if_neg h2] at hx
      exact hx

theorem parseNumber_ne_inf {s : String} (h : 'I' ∉ s.data) (b : Bool) :
    parseNumber s ≠ .inf b := by
  intro hcon
  simp only [parseNumber] at hcon
  by_cases hst : startsChars ['I', 'n', 'f', 'i', 'n', 'i', 't', 'y']
      (readSign (s.data.dropWhile (fun c => isJsSpace c))).2 = true
  · apply h
    exact (List.dropWhile_sublist _).subset (readSign_subset _ (startsChars_head hst))
  · rw [if_neg hst] at hcon
    rcases hpm : parseMag (readSign (s.data.dropWhile (fun c => isJsSpace c))).2
      with _ | q
    · rw [hpm] at hcon
      exact JNum.noConfusion hcon
    · rw [hpm] at hcon
      exact JNum.noConfusion hcon

theorem numericChar_ne_I {c : Char} (h : numericChar c = true) : ¬ c = 'I' := by
  intro hcc
  rw [hcc] at h
  exact absurd h (by decide)

theorem formatResult_fin_chars (q : ℚ) (m : ℕ) :
    ∀ c ∈ (formatResult (.fin q) m).data, numericChar c = true := by
  show ∀ c ∈ (if 10 ^ m ≤ |q| then String.mk (toExponential6 q)
    else if m < (formattedStr (roundedNum q)).length then
      String.mk (fixedFallback (roundedNum q) m)
    else String.mk (formattedStr (roundedNum q))).data, numericChar c = true
  by_cases h1 : 10 ^ m ≤ |q|
  · rw [if_pos h1]
    exact toExponential6_chars q
  · rw [if_neg h1]
    by_cases h2 : m < (formattedStr (roundedNum q)).length
    · rw [if_pos h2]
      intro c hc
      show numericChar c = true
      unfold fixedFallback at hc
      by_cases h3 : (natToChars ((roundedNum q).natAbs / 10 ^ 10)).length < m
      · rw [if_pos h3] at hc
        exact jsToFixedScaled_chars _ _ _ c (stripTailZeros_subset hc)
      · rw [if_neg h3] at hc
        exact intToChars_chars _ c hc
    · rw [if_neg h2]
      intro c hc
      rw [formattedStr_eq] at hc
      exact jsToStringScaled_chars _ _ c hc

/-- The five error messages the engine can display, plus `"Error"` (which
`inputOperator` writes after a failed `calculate`). -/
def errMsgs : List String :=
  ["Error", "Invalid input", "Cannot divide by zero", "Invalid result",
   "Overflow", "Input too long. Maximum length exceeded."]

/-- The memory-safety invariant: the memory always holds a finite value,
the stored operator (if any) is valid, and the display is either a numeric
string or (in an error state) one of the fixed error messages. -/
def C10Inv (s : CalcState) : Prop :=
  (∃ q, s.memory = .fin q) ∧
  (s.operator = none ∨ ∃ c, s.operator = some c ∧ isValidOperator c = true) ∧
  ((∀ c ∈ s.currentInput.data, numericChar c = true) ∨
    (s.isError = true ∧ s.currentInput ∈ errMsgs))

theorem parse_strOK {s : CalcState}
    (hstr : (∀ c ∈ s.currentInput.data, numericChar c = true) ∨
      (s.isError = true ∧ s.currentInput ∈ errMsgs)) :
    (parseNumber s.currentInput).isNaNJ = true ∨
      ∃ q, parseNumber s.currentInput = .fin q := by
  rcases hstr with h | ⟨-, h⟩
  · rcases hp : parseNumber s.currentInput with _ | b | q
    · left
      rfl
    · exfalso
      have hni : 'I' ∉ s.currentInput.data := fun hm =>
        absurd (h 'I' hm) (by decide)
      exact absurd hp (parseNumber_ne_inf hni b)
    · right
      exact ⟨q, rfl⟩
  · simp only [errMsgs, List.mem_cons, List.not_mem_nil, or_false] at h
    rcases h with h | h | h | h | h | h <;> rw [h] <;> left <;> decide!

theorem zero_numeric : ∀ c ∈ ("0" : String).data, numericChar c = true := by decide

theorem clear_c10inv {s : CalcState} (h : C10Inv s) : C10Inv (clear s) :=
  ⟨h.1, Or.inl rfl, Or.inl zero_numeric⟩

theorem clearEntry_c10inv {s : CalcState} (h : C10Inv s) : C10Inv (clearEntry s) :=
  ⟨h.1, h.2.1, Or.inl zero_numeric⟩

theorem backspace_c10inv {s : CalcState} (h : C10Inv s) : C10Inv (backspace s) := by
  obtain ⟨hmem, hop, hstr⟩ := h
  simp only [backspace]
  by_cases he : s.isError = true
  · rw [if_pos he]
    exact clear_c10inv ⟨hmem, hop, hstr⟩
  rw [if_neg he]
  have hnum : ∀ c ∈ s.currentInput.data, numericChar c = true := by
    rcases hstr with hn | ⟨habs, -⟩
    · exact hn
    · exact absurd habs he
  by_cases hlen : 1 < s.currentInput.length
  · rw [if_pos hlen]
    have hsub : ∀ c ∈ s.currentInput.data.dropLast, numericChar c = true :=
      fun c hc => hnum c ((List.dropLast_sublist _).subset hc)
    by_cases hlast : s.currentInput.data.getLast? = some '.'
    · rw [if_pos hlast]
      exact ⟨hmem, hop, Or.inl hsub⟩
    rw [if_neg hlast]
    by_cases hhd : s.hasDecimal = true
    · rw [if_pos hhd]
      exact ⟨hmem, hop, Or.inl hsub⟩
    · rw [if_neg hhd]
      exact ⟨hmem, hop, Or.inl hsub⟩
  · rw [if_neg hlen]
    exact ⟨hmem, hop, Or.inl zero_numeric⟩

theorem memoryStore_c10inv {s : CalcState} (h : C10Inv s) : C10Inv (memoryStore s) := by
  obtain ⟨hmem, hop, hstr⟩ := h
  simp only [memoryStore]
  rcases parse_strOK hstr with hnan | ⟨q, hq⟩
  · rw [if_neg (show ¬ ((! (parseNumber s.currentInput).isNaNJ) = true) by
      rw [hnan]; decide)]
    exact ⟨hmem, hop, hstr⟩
  · rw [if_pos (show (! (parseNumber s.currentInput).isNaNJ) = true by
      rw [hq]; rfl)]
    exact ⟨⟨q, hq⟩, hop, hstr⟩

theorem memoryAdd_c10inv {s : CalcState} (h : C10Inv s) : C10Inv (memoryAdd s) := by
  obtain ⟨⟨qm, hqm⟩, hop, hstr⟩ := h
  simp only [memoryAdd]
  rcases parse_strOK hstr with hnan | ⟨q, hq⟩
  · rw [if_neg (show ¬ ((! (parseNumber s.currentInput).isNaNJ) = true) by
      rw [hnan]; decide)]
    exact ⟨⟨qm, hqm⟩, hop, hstr⟩
  · rw [if_pos (show (! (parseNumber s.currentInput).isNaNJ) = true by
      rw [hq]; rfl)]
    refine ⟨⟨qm + q, ?_⟩, hop, hstr⟩
    show jadd s.memory (parseNumber s.currentInput) = .fin (qm + q)
    rw [hqm, hq]
    rfl

theorem memorySubtract_c10inv {s : CalcState} (h : C10Inv s) :
    C10Inv (memorySubtract s) := by
  obtain ⟨⟨qm, hqm⟩, hop, hstr⟩ := h
  simp only [memorySubtract]
  rcases parse_strOK hstr with hnan | ⟨q, hq⟩
  · rw [if_neg (show ¬ ((! (parseNumber s.currentInput).isNaNJ) = true) by
      rw [hnan]; decide)]
    exact ⟨⟨qm, hqm⟩, hop, hstr⟩
  · rw [if_pos (show (! (parseNumber s.currentInput).isNaNJ) = true by
      rw [hq]; rfl)]
    refine ⟨⟨qm - q, ?_⟩, hop, hstr⟩
    show jsub s.memory (parseNumber s.currentInput) = .fin (qm - q)
    rw [hqm, hq]
    rfl

theorem memoryClear_c10inv {s : CalcState} (h : C10Inv s) : C10Inv (memoryClear s) :=
  ⟨⟨0, rfl⟩, h.2.1, h.2.2⟩

theorem memoryRecall_c10inv {s : CalcState} (h : C10Inv s) : C10Inv (memoryRecall s) := by
  obtain ⟨⟨qm, hqm⟩, hop, hstr⟩ := h
  simp only [memoryRecall]
  by_cases hact : s.memoryActive = true
  · rw [if_pos hact]
    refine ⟨⟨qm, hqm⟩, hop, Or.inl ?_⟩
    intro c hc
    show numericChar c = true
    rw [hqm] at hc
    exact formatResult_fin_chars qm s.maxDigits c hc
  · rw [if_neg hact]
    exact ⟨⟨qm, hqm⟩, hop, hstr⟩

theorem parse_nan_of_isNaNJ {v : JNum} (h : v.isNaNJ = true) : v = .nan := by
  cases v with
  | nan => rfl
  | inf b => cases h
  | fin q => cases h

theorem calculatePercentage_c10inv {s : CalcState} (h : C10Inv s) :
    C10Inv (calculatePercentage s) := by
  obtain ⟨hmem, hop, hstr⟩ := h
  simp only [calculatePercentage]
  rcases parse_strOK hstr with hnan | ⟨q, hq⟩
  · rw [if_neg (show ¬ ((! (parseNumber s.currentInput).isNaNJ) = true) by
      rw [hnan]; decide)]
    exact ⟨hmem, hop, hstr⟩
  · rw [if_pos (show (! (parseNumber s.currentInput).isNaNJ) = true by
      rw [hq]; rfl)]
    have hdiv : jdiv (parseNumber s.currentInput) (.fin 100) = .fin (q / 100) := by
      rw [hq]
      show (if (100 : ℚ) = 0 then (if q = 0 then JNum.nan
        else .inf (decide (q < 0))) else .fin (q / 100)) = .fin (q / 100)
      rw [if_neg (by norm_num : ¬ (100 : ℚ) = 0)]
    refine ⟨hmem, hop, Or.inl ?_⟩
    intro c hc
    show numericChar c = true
    rw [hdiv] at hc
    exact formatResult_fin_chars _ _ c hc

theorem calculateSquare_c10inv {s : CalcState} (h : C10Inv s) :
    C10Inv (calculateSquare s) := by
  obtain ⟨hmem, hop, hstr⟩ := h
  simp only [calculateSquare]
  rcases parse_strOK hstr with hnan | ⟨q, hq⟩
  · rw [if_neg (show ¬ ((! (parseNumber s.currentInput).isNaNJ) = true) by
      rw [hnan]; decide)]
    exact ⟨hmem, hop, hstr⟩
  · rw [if_pos (show (! (parseNumber s.currentInput).isNaNJ) = true by
      rw [hq]; rfl)]
    have hsq : jmul (parseNumber s.currentInput) (parseNumber s.currentInput)
        = .fin (q * q) := by
      rw [hq]
      rfl
    refine ⟨hmem, hop, Or.inl ?_⟩
    intro c hc
    show numericChar c = true
    rw [hsq] at hc
    exact formatResult_fin_chars _ _ c hc

theorem calculateCube_c10inv {s : CalcState} (h : C10Inv s) :
    C10Inv (calculateCube s) := by
  obtain ⟨hmem, hop, hstr⟩ := h
  simp only [calculateCube]
  rcases parse_strOK hstr with hnan | ⟨q, hq⟩
  · rw [if_neg (show ¬ ((! (parseNumber s.currentInput).isNaNJ) = true) by
      rw [hnan]; decide)]
    exact ⟨hmem, hop, hstr⟩
  · rw [if_pos (show (! (parseNumber s.currentInput).isNaNJ) = true by
      rw [hq]; rfl)]
    have hcu : jmul (jmul (parseNumber s.currentInput) (parseNumber s.currentInput))
        (parseNumber s.currentInput) = .fin (q * q * q) := by
      rw [hq]
      rfl
    refine ⟨hmem, hop, Or.inl ?_⟩
    intro c hc
    show numericChar c = true
    rw [hcu] at hc
    exact formatResult_fin_chars _ _ c hc

theorem calculateSquareRoot_c10inv {s : CalcState} (h : C10Inv s) :
    C10Inv (calculateSquareRoot s) := by
  obtain ⟨hmem, hop, hstr⟩ := h
  simp only [calculateSquareRoot]
  rcases parse_strOK hstr with hnan | ⟨q, hq⟩
  · have hv : parseNumber s.currentInput = .nan := parse_nan_of_isNaNJ hnan
    rw [if_neg (show ¬ (((! (parseNumber s.currentInput).isNaNJ) &&
      jge0 (parseNumber s.currentInput)) = true) by rw [hv]; decide)]
    rw [if_neg (show ¬ (jlt0 (parseNumber s.currentInput) = true) by
      rw [hv]; decide)]
    exact ⟨hmem, hop, hstr⟩
  · by_cases hge : (0 : ℚ) ≤ q
    · rw [if_pos (show ((! (parseNumber s.currentInput).isNaNJ) &&
        jge0 (parseNumber s.currentInput)) = true by
          rw [hq]; simp [jge0, JNum.isNaNJ, hge])]
      have hsq : jsqrt (parseNumber s.currentInput)
          = .fin ((natSqrtLin q.num.toNat : ℚ) / (natSqrtLin q.den : ℚ)) := by
        rw [hq]
        show (if 0 ≤ q then JNum.fin ((natSqrtLin q.num.toNat : ℚ) /
          (natSqrtLin q.den : ℚ)) else .nan) = _
        rw [if_pos hge]
      refine ⟨hmem, hop, Or.inl ?_⟩
      intro c hc
      show numericChar c = true
      rw [hsq] at hc
      exact formatResult_fin_chars _ _ c hc
    · rw [if_neg (show ¬ (((! (parseNumber s.currentInput).isNaNJ) &&
        jge0 (parseNumber s.currentInput)) = true) by
          rw [hq]; simp [jge0, JNum.isNaNJ, hge])]
      rw [if_pos (show jlt0 (parseNumber s.currentInput) = true by
        rw [hq]; simp [jlt0]; exact not_le.mp hge)]
      exact ⟨hmem, hop, Or.inr ⟨rfl,
        (by decide : ("Invalid input" : String) ∈ errMsgs)⟩⟩

theorem calculateReciprocal_c10inv {s : CalcState} (h : C10Inv s) :
    C10Inv (calculateReciprocal s) := by
  obtain ⟨hmem, hop, hstr⟩ := h
  simp only [calculateReciprocal]
  rcases parse_strOK hstr with hnan | ⟨q, hq⟩
  · have hv : parseNumber s.currentInput = .nan := parse_nan_of_isNaNJ hnan
    rw [if_neg (show ¬ (((! (parseNumber s.currentInput).isNaNJ) &&
      (! jeq0 (parseNumber s.currentInput))) = true) by rw [hv]; decide)]
    rw [if_neg (show ¬ (jeq0 (parseNumber s.currentInput) = true) by
      rw [hv]; decide)]
    exact ⟨hmem, hop, hstr⟩
  · by_cases hq0 : q = 0
    · rw [if_neg (show ¬ (((! (parseNumber s.currentInput).isNaNJ) &&
        (! jeq0 (parseNumber s.currentInput))) = true) by
          rw [hq]; simp [jeq0, JNum.isNaNJ, hq0])]
      rw [if_pos (show jeq0 (parseNumber s.currentInput) = true by
        rw [hq]; simp [jeq0, hq0])]
      exact ⟨hmem, hop, Or.inr ⟨rfl,
        (by decide : ("Cannot divide by zero" : String) ∈ errMsgs)⟩⟩
    · rw [if_pos (show ((! (parseNumber s.currentInput).isNaNJ) &&
        (! jeq0 (parseNumber s.currentInput))) = true by
          rw [hq]; simp [jeq0, JNum.isNaNJ, hq0])]
      have hdiv : jdiv (.fin 1) (parseNumber s.currentInput) = .fin (1 / q) := by
        rw [hq]
        show (if q = 0 then (if (1 : ℚ) = 0 then JNum.nan
          else .inf (decide ((1 : ℚ) < 0))) else .fin (1 / q)) = .fin (1 / q)
        rw [if_neg hq0]
      refine ⟨hmem, hop, Or.inl ?_⟩
      intro c hc
      show numericChar c = true
      rw [hdiv] at hc
      exact formatResult_fin_chars _ _ c hc

theorem inputNumber_c10inv {s : CalcState} (h : C10Inv s) (c : Char) :
    C10Inv (inputNumber s (String.singleton c)) := by
  obtain ⟨hmem, hop, hstr⟩ := h
  simp only [inputNumber]
  by_cases hv : isValidNumber (String.singleton c) = true
  · have hcd : c.isDigit = true := hv
    have hsing : ∀ x ∈ [c], numericChar x = true := by
      intro x hx
      have : x = c := by simpa using hx
      rw [this]
      exact numeric_of_digit hcd
    rw [if_neg (show ¬ ((! isValidNumber (String.singleton c)) = true) by
      rw [hv]; decide)]
    by_cases hguard : (! validateInputLength
        (if s.waitingForOperand = true then String.singleton c
         else s.currentInput ++ String.singleton c) s.maxDigits) = true
    · rw [if_pos hguard]
      exact ⟨hmem, hop, Or.inr ⟨rfl,
        (by decide : ("Input too long. Maximum length exceeded." : String) ∈ errMsgs)⟩⟩
    rw [if_neg hguard]
    by_cases he : s.isError = true
    · rw [if_pos he]
      rw [show (clear s).waitingForOperand = false from rfl]
      rw [if_neg (show ¬ (false = true) by decide)]
      rw [if_pos (show (clear s).currentInput = "0" from rfl)]
      exact ⟨hmem, Or.inl rfl, Or.inl hsing⟩
    rw [if_neg he]
    have hnum : ∀ x ∈ s.currentInput.data, numericChar x = true := by
      rcases hstr with hn | ⟨habs, -⟩
      · exact hn
      · exact absurd habs he
    by_cases hwb : s.waitingForOperand = true
    · rw [if_pos hwb]
      exact ⟨hmem, hop, Or.inl hsing⟩
    rw [if_neg hwb]
    by_cases h0 : s.currentInput = "0"
    · rw [if_pos h0]
      exact ⟨hmem, hop, Or.inl hsing⟩
    rw [if_neg h0]
    by_cases hfull : getDisplayLength s < s.maxDigits
    · rw [if_pos hfull]
      refine ⟨hmem, hop, Or.inl ?_⟩
      intro x hx
      show numericChar x = true
      rcases List.mem_append.mp hx with hx | hx
      · exact hnum x hx
      · exact hsing x hx
    · rw [if_neg hfull]
      exact ⟨hmem, hop, Or.inl hnum⟩
  · have hvf : isValidNumber (String.singleton c) = false := by
      revert hv; cases isValidNumber (String.singleton c) <;> simp
    rw [if_pos (show (! isValidNumber (String.singleton c)) = true by
      rw [hvf]; decide)]
    exact ⟨hmem, hop, hstr⟩

theorem inputDecimal_c10inv {s : CalcState} (h : C10Inv s) :
    C10Inv (inputDecimal s) := by
  obtain ⟨hmem, hop, hstr⟩ := h
  simp only [inputDecimal]
  by_cases hguard : (! validateInputLength
      (if s.waitingForOperand = true then "0." else s.currentInput ++ ".")
      s.maxDigits) = true
  · rw [if_pos hguard]
    exact ⟨hmem, hop, Or.inr ⟨rfl,
      (by decide : ("Input too long. Maximum length exceeded." : String) ∈ errMsgs)⟩⟩
  rw [if_neg hguard]
  by_cases he : s.isError = true
  · rw [if_pos he]
    rw [show (clear s).waitingForOperand = false from rfl]
    rw [if_neg (show ¬ (false = true) by decide)]
    by_cases hfull : getDisplayLength (clear s) < (clear s).maxDigits
    · rw [if_pos (show ((! (clear s).hasDecimal) &&
        decide (getDisplayLength (clear s) < (clear s).maxDigits)) = true by
          rw [show (clear s).hasDecimal = false from rfl]; simp [hfull])]
      refine ⟨hmem, Or.inl rfl, Or.inl ?_⟩
      show ∀ x ∈ ("0" : String).data ++ ['.'], numericChar x = true
      decide
    · rw [if_neg (show ¬ (((! (clear s).hasDecimal) &&
        decide (getDisplayLength (clear s) < (clear s).maxDigits)) = true) by
          rw [show (clear s).hasDecimal = false from rfl]; simp [hfull])]
      exact clear_c10inv ⟨hmem, hop, hstr⟩
  rw [if_neg he]
  have hnum : ∀ x ∈ s.currentInput.data, numericChar x = true := by
    rcases hstr with hn | ⟨habs, -⟩
    · exact hn
    · exact absurd habs he
  by_cases hwb : s.waitingForOperand = true
  · rw [if_pos hwb]
    refine ⟨hmem, hop, Or.inl ?_⟩
    show ∀ x ∈ ("0." : String).data, numericChar x = true
    decide
  rw [if_neg hwb]
  by_cases hcase : ((! s.hasDecimal) &&
      decide (getDisplayLength s < s.maxDigits)) = true
  · rw [if_pos hcase]
    refine ⟨hmem, hop, Or.inl ?_⟩
    intro x hx
    show numericChar x = true
    rcases List.mem_append.mp hx with hx | hx
    · exact hnum x hx
    · have : x = '.' := by simpa using hx
      rw [this]
      decide
  · rw [if_neg hcase]
    exact ⟨hmem, hop, Or.inl hnum⟩

theorem calculate_c10inv {s : CalcState} (h : C10Inv s) : C10Inv (calculate s).1 := by
  obtain ⟨hmem, hop, hstr⟩ := h
  rcases calculate_props hop with ⟨h1, h2, h3⟩ | ⟨msg, h1, h2, h3⟩ |
    ⟨r, prev, op, cur, hso, hsp, h2, h1, hn2, hf2⟩
  · rw [h1]
    exact ⟨hmem, hop, hstr⟩
  · rw [h1]
    refine ⟨hmem, hop, Or.inr ⟨rfl, ?_⟩⟩
    show msg ∈ errMsgs
    rcases h3 with rfl | rfl | rfl | rfl <;> decide
  · rw [h1]
    have hrfin : ∃ q, r = .fin q := by
      cases r with
      | nan => cases hn2
      | inf b => cases hf2
      | fin q => exact ⟨q, rfl⟩
    obtain ⟨q, rfl⟩ := hrfin
    exact ⟨hmem, Or.inl rfl, Or.inl (formatResult_fin_chars q s.maxDigits)⟩

theorem inputOperator_c10inv {s : CalcState} {op : Char}
    (hvo : isValidOperator op = true) (h : C10Inv s) :
    C10Inv (inputOperator s op) := by
  obtain ⟨hmem, hop, hstr⟩ := h
  simp only [inputOperator]
  by_cases he : s.isError = true
  · rw [if_pos he]
    exact ⟨hmem, hop, hstr⟩
  rw [if_neg he]
  by_cases hprev : s.previousInput = none
  · rw [if_pos hprev]
    exact ⟨hmem, Or.inr ⟨op, rfl, hvo⟩, hstr⟩
  rw [if_neg hprev]
  by_cases hopn : s.operator ≠ none
  · rw [if_pos hopn]
    rcases calculate_props hop with ⟨h1, h2, h3⟩ | ⟨msg, h1, h2, h3⟩ |
      ⟨r, prev, opc, cur, hso, hsp, h2, h1, hn2, hf2⟩
    · rcases h3 with hcon | hcon | hcon
      · exact absurd hcon he
      · exact absurd hcon hopn
      · exact absurd hcon hprev
    · rw [h1, h2]
      refine ⟨hmem, Or.inr ⟨op, rfl, hvo⟩, Or.inr ⟨rfl, ?_⟩⟩
      show formatResult JNum.nan s.maxDigits ∈ errMsgs
      show ("Error" : String) ∈ errMsgs
      decide
    · rw [h1, h2]
      have hrfin : ∃ q, r = .fin q := by
        cases r with
        | nan => cases hn2
        | inf b => cases hf2
        | fin q => exact ⟨q, rfl⟩
      obtain ⟨q, rfl⟩ := hrfin
      exact ⟨hmem, Or.inr ⟨op, rfl, hvo⟩,
        Or.inl (formatResult_fin_chars q s.maxDigits)⟩
  · rw [if_neg hopn]
    exact ⟨hmem, Or.inr ⟨op, rfl, hvo⟩, hstr⟩

/-- C10: memoryStore, memoryAdd and memorySubtract are complete no-ops
whenever the display does not parse as a number (isNaN guard), and in every
state reachable from the initial state by any token sequence the memory
value is never NaN. -/
theorem C10_memory_safety :
    (∀ s : CalcState, (parseNumber s.currentInput).isNaNJ = true →
      memoryStore s = s ∧ memoryAdd s = s ∧ memorySubtract s = s) ∧
    (∀ m histLimit : ℕ, ∀ ts : List Token,
      ¬ (applyTokens (initState m histLimit) ts).memory = .nan) := by
  constructor
  · intro s hnan
    refine ⟨?_, ?_, ?_⟩
    · simp only [memoryStore]
      rw [if_neg (show ¬ ((! (parseNumber s.currentInput).isNaNJ) = true) by
        rw [hnan]; decide)]
    · simp only [memoryAdd]
      rw [if_neg (show ¬ ((! (parseNumber s.currentInput).isNaNJ) = true) by
        rw [hnan]; decide)]
    · simp only [memorySubtract]
      rw [if_neg (show ¬ ((! (parseNumber s.currentInput).isNaNJ) = true) by
        rw [hnan]; decide)]
  · intro m histLimit ts
    have hinit : C10Inv (initState m histLimit) := by
      refine ⟨⟨0, rfl⟩, Or.inl rfl, Or.inl ?_⟩
      show ∀ c ∈ ("0" : String).data, numericChar c = true
      decide
    have h := applyTokens_inv C10Inv ts (initState m histLimit) hinit
      (fun s' t _ hP => by
        rcases t with c | c | a
        · exact inputNumber_c10inv hP c
        · show C10Inv (if isValidOperator c = true then inputOperator s' c else s')
          by_cases hvo : isValidOperator c = true
          · rw [if_pos hvo]
            exact inputOperator_c10inv hvo hP
          · rw [if_neg hvo]
            exact hP
        · cases a with
          | clear => exact clear_c10inv hP
          | clearEntry => exact clearEntry_c10inv hP
          | backspace => exact backspace_c10inv hP
          | decimal => exact inputDecimal_c10inv hP
          | equals => exact calculate_c10inv hP
          | memStore => exact memoryStore_c10inv hP
          | memRecall => exact memoryRecall_c10inv hP
          | memAdd => exact memoryAdd_c10inv hP
          | memSubtract => exact memorySubtract_c10inv hP
          | memClear => exact memoryClear_c10inv hP
          | percentage => exact calculatePercentage_c10inv hP
          | squareRoot => exact calculateSquareRoot_c10inv hP
          | square => exact calculateSquare_c10inv hP
          | cube => exact calculateCube_c10inv hP
          | reciprocal => exact calculateReciprocal_c10inv hP)
    obtain ⟨⟨q, hq⟩, -, -⟩ := h
    intro hcon
    rw [hq] at hcon
    exact JNum.noConfusion hcon

/-- C10 witness: with the division-by-zero error message displayed, the
three memory writes leave the state untouched, and after storing `5` the
memory is not NaN. -/
theorem C10_memory_safety_witness :
    memoryStore (applyTokens (initState 12 50)
      [.digit '5', .op '÷', .digit '0', .act .equals])
      = applyTokens (initState 12 50)
        [.digit '5', .op '÷', .digit '0', .act .equals] ∧
    ¬ (applyTokens (initState 12 50)
      [.digit '5', .act .memStore]).memory = .nan := by
  refine ⟨(C10_memory_safety.1 _ (by decide!)).1, C10_memory_safety.2 12 50 _⟩
